import Mathlib

/-!
Verification of the `kass` command-line CQL runner.

This file gives a shallow embedding, in Lean, of the core of the program:

* `src/date_range.rs` — the calendar iterators (`FixedInterval`,
  `MonthlyInterval`, `DateTimeRange`) and month arithmetic;
* `src/params.rs` — the parameter-range grammars and the expansion of
  parameter specifications into cartesian products of query values;
* `src/iterator_consumer.rs` — the bounded fail-fast dispatcher, modelled
  as a small-step nondeterministic state machine;
* `src/types.rs` — the typed column-value decoder (`ColValue`);
* `src/json.rs` — the (older) row-to-JSON renderer.

Conventions of the embedding:

* Rust panics (`unwrap` on `None`, `Iterator::step_by(0)`,
  `NaiveDate::from_ymd` on an out-of-range date) are made explicit with the
  `PanicOr` wrapper type.
* `chrono::NaiveDateTime` values are represented by the signed number of
  seconds since 1970-01-01T00:00:00 (all operations the program performs on
  them — comparison, adding a whole-second `Duration`, splitting into date
  and time of day — are second-granular).  `chrono::NaiveDate` is
  represented by a year/month/day record; conversion between the two uses
  the standard proleptic-Gregorian civil-day arithmetic, which is what
  chrono implements, including chrono's representable year range
  -262144..=262143.
* External collaborators (the cdrs wire-format primitive decoders, the
  chrono `format` renderer, the row accessor of cdrs) are modelled by
  simple executable stand-ins, marked as such in their doc comments; no
  claim settled here depends on their internals, only on how the
  repository's own code composes them.
-/

namespace Kass

/-- Result of a Rust computation that may `panic!` (e.g. `Option::unwrap`,
`Iterator::step_by(0)`, `NaiveDate::from_ymd` out of range). -/
inductive PanicOr (α : Type u) : Type u
  | panic (msg : String)
  | value (a : α)
deriving Repr, DecidableEq

instance : Monad PanicOr where
  pure := PanicOr.value
  bind := fun x f =>
    match x with
    | .panic m => .panic m
    | .value a => f a

/-- Functorial map on `PanicOr`. -/
def PanicOr.map (f : α → β) : PanicOr α → PanicOr β
  | .panic m => .panic m
  | .value a => .value (f a)

instance {ε α : Type u} [DecidableEq ε] [DecidableEq α] : DecidableEq (Except ε α) := fun x y =>
  match x, y with
  | .ok a, .ok b => if h : a = b then .isTrue (by rw [h]) else .isFalse (by simp [h])
  | .error a, .error b => if h : a = b then .isTrue (by rw [h]) else .isFalse (by simp [h])
  | .ok _, .error _ => .isFalse (by simp)
  | .error _, .ok _ => .isFalse (by simp)

/-- `chrono::NaiveDate`: a proleptic-Gregorian calendar date. -/
structure Date where
  year : Int
  month : Nat
  day : Nat
deriving Repr, DecidableEq

/-- Number of civil days from 1970-01-01 to the given date (the standard
`days_from_civil` computation of the proleptic Gregorian calendar, which is
the calendar `chrono::NaiveDate` implements). -/
def civilToDays (d : Date) : Int :=
  let y : Int := if d.month ≤ 2 then d.year - 1 else d.year
  let era : Int := Int.fdiv y 400
  let yoe : Nat := (y - era * 400).toNat
  let mp : Nat := (d.month + 9) % 12
  let doy : Nat := (153 * mp + 2) / 5 + (d.day - 1)
  let doe : Nat := yoe * 365 + yoe / 4 - yoe / 100 + doy
  era * 146097 + (doe : Int) - 719468

/-- Inverse of `civilToDays` (the standard `civil_from_days` computation). -/
def daysToCivil (z0 : Int) : Date :=
  let z : Int := z0 + 719468
  let era : Int := Int.fdiv z 146097
  let doe : Nat := (z - era * 146097).toNat
  let yoe : Nat := (doe - doe / 1460 + doe / 36524 - doe / 146096) / 365
  let doy : Nat := doe - (365 * yoe + yoe / 4 - yoe / 100)
  let mp : Nat := (5 * doy + 2) / 153
  let d : Nat := doy - (153 * mp + 2) / 5 + 1
  let m : Nat := if mp < 10 then mp + 3 else mp - 9
  { year := era * 400 + yoe + (if m ≤ 2 then 1 else 0), month := m, day := d }

/-- Is `y` a leap year of the proleptic Gregorian calendar? -/
def isLeapYear (y : Int) : Bool :=
  Int.emod y 4 = 0 && (Int.emod y 100 ≠ 0 || Int.emod y 400 = 0)

/-- Number of days of month `m` of year `y` (chrono's calendar). -/
def daysInMonth (y : Int) (m : Nat) : Nat :=
  if m = 2 then (if isLeapYear y then 29 else 28)
  else if m = 4 || m = 6 || m = 9 || m = 11 then 30
  else 31

/-- chrono's smallest representable year (`i32::MIN >> 13`). -/
def chronoMinYear : Int := -262144

/-- chrono's largest representable year (`i32::MAX >> 13`). -/
def chronoMaxYear : Int := 262143

/-- `chrono::NaiveDate::from_ymd_opt`: `some` exactly on calendar-valid
dates within chrono's representable year range. -/
def fromYmdOpt (y : Int) (m d : Nat) : Option Date :=
  if chronoMinYear ≤ y ∧ y ≤ chronoMaxYear ∧ 1 ≤ m ∧ m ≤ 12 ∧ 1 ≤ d ∧ d ≤ daysInMonth y m
  then some ⟨y, m, d⟩ else none

/-- `chrono::NaiveDate::from_ymd`: like `fromYmdOpt` but panics on an
invalid or out-of-range date. -/
def fromYmd (y : Int) (m d : Nat) : PanicOr Date :=
  match fromYmdOpt y m d with
  | some date => .value date
  | none => .panic ("invalid or out-of-range date")

/-- `chrono::NaiveDate::pred`: the previous calendar day. -/
def Date.pred (d : Date) : Date := daysToCivil (civilToDays d - 1)

/-- A `chrono::NaiveDateTime`, as seconds since 1970-01-01T00:00:00. -/
abbrev DateTime := Int

/-- `NaiveDateTime::date()`. -/
def DateTime.dateOf (t : DateTime) : Date := daysToCivil (Int.fdiv t 86400)

/-- `NaiveDateTime::time()`, as seconds since midnight. -/
def DateTime.timeOf (t : DateTime) : Int := Int.emod t 86400

/-- `NaiveDateTime::new(date, time)`. -/
def DateTime.combine (d : Date) (t : Int) : DateTime := civilToDays d * 86400 + t

/-- Convenience constructor for concrete timestamps in statements. -/
def mkDateTime (y : Int) (mo d hh mi ss : Nat) : DateTime :=
  DateTime.combine ⟨y, mo, d⟩ (hh * 3600 + mi * 60 + ss)

/-! ## Embedding of `src/date_range.rs` -/

/-- `DATE_FORMAT` of `date_range.rs`. -/
def DATE_FORMAT : String := "%Y-%m-%d"

/-- `DATE_TIME_FORMAT` of `date_range.rs`. -/
def DATE_TIME_FORMAT : String := "%Y-%m-%dT%H:%M:%S"

/-- `FixedInterval` of `date_range.rs`: `start` is the cursor, `stop` the
exclusive bound (`end` in Rust, renamed: `end` is a Lean keyword), `step` a
`chrono::Duration` in seconds. -/
structure FixedInterval where
  start : DateTime
  stop : DateTime
  step : Int
deriving Repr, DecidableEq

/-- `MonthlyInterval` of `date_range.rs` (`end` renamed to `stop`). -/
structure MonthlyInterval where
  current_date : Option Date
  time_of_day : Int
  stop : DateTime
  months : Nat
deriving Repr, DecidableEq

/-- `DateTimeRange` of `date_range.rs`. -/
inductive DateTimeRange
  | FixedStep (x : FixedInterval)
  | MonthlyStep (x : MonthlyInterval)
deriving Repr, DecidableEq

/-- `last_day_of_month` of `date_range.rs`, including the panic of the
`NaiveDate::from_ymd(year + 1, 1, 1)` fallback when `year + 1` is outside
chrono's representable range. -/
def last_day_of_month (year : Int) (month : Nat) : PanicOr Nat := do
  let firstOfNext ←
    match fromYmdOpt year (month + 1) 1 with
    | some d => pure d
    | none => fromYmd (year + 1) 1 1
  return firstOfNext.pred.day

/-- `last_day_of_month_0` of `date_range.rs`. -/
def last_day_of_month_0 (year : Int) (month_0 : Nat) : PanicOr Nat :=
  last_day_of_month year (month_0 + 1)

/-- `add_months_naive_date` of `date_range.rs`.  The Rust `u32`/`i64`/`i32`
overflow checks are kept: `months` is a `u32`, so `month0 + months` never
overflows an `i64` (that `checked_add` cannot fail and is dropped), while
the `additional_years >= i32::MAX` and `year.checked_add` guards are
modelled explicitly. -/
def add_months_naive_date (date : Date) (months : Nat) : PanicOr (Option Date) := do
  let next_month_0 : Nat := (date.month - 1) + months
  let additional_years : Nat := next_month_0 / 12
  let next_month_0 : Nat := next_month_0 % 12
  if (additional_years : Int) ≥ 2147483647 then
    return none
  else
    let next_year : Int := date.year + additional_years
    if next_year > 2147483647 ∨ next_year < -2147483648 then
      return none
    else do
      let lastDay ← last_day_of_month_0 next_year next_month_0
      let next_day : Nat := min date.day lastDay
      return fromYmdOpt next_year (next_month_0 + 1) next_day

/-- `FixedInterval::next` (the cursor field is named `start` in the
source); returns the yielded item and the successor state. -/
def FixedInterval.next (s : FixedInterval) : Option DateTime × FixedInterval :=
  if s.start ≥ s.stop then (none, s)
  else (some s.start, { s with start := s.start + s.step })

/-- `MonthlyInterval::next`; `add_months_naive_date` may panic (inside
`last_day_of_month`), hence the `PanicOr`. -/
def MonthlyInterval.next (s : MonthlyInterval) : PanicOr (Option DateTime × MonthlyInterval) :=
  match s.current_date with
  | some current_date =>
    let current : DateTime := DateTime.combine current_date s.time_of_day
    if current ≥ s.stop then pure (none, s)
    else do
      let nd ← add_months_naive_date current_date s.months
      pure (some current, { s with current_date := nd })
  | none => pure (none, s)

/-- `<DateTimeRange as Iterator>::next`. -/
def DateTimeRange.next (r : DateTimeRange) : PanicOr (Option DateTime × DateTimeRange) :=
  match r with
  | .FixedStep x => pure (x.next.1, .FixedStep x.next.2)
  | .MonthlyStep x => do
    let (o, x') ← x.next
    pure (o, .MonthlyStep x')

/-- Driving the iterator to a list, as Rust's `collect` does; `fuel` bounds
the number of `next` calls (Rust's `collect` does not terminate on an
infinite iterator; every theorem below uses enough fuel for the iterator to
report exhaustion within it, which the stated result length certifies). -/
def DateTimeRange.collect (fuel : Nat) (r : DateTimeRange) : PanicOr (Option (List DateTime)) :=
  match fuel with
  | 0 => pure none
  | fuel + 1 => do
    let (o, r') ← r.next
    match o with
    | none => pure (some [])
    | some x => do
      let rest ← DateTimeRange.collect fuel r'
      pure (rest.map (fun l => x :: l))

/-! ## Errors (`src/errors.rs`) -/

/-- `AppError` of `errors.rs`.  `InvalidInt` drops the `ParseIntError`
payload; `QueryFailure` and `JsonError` likewise carry only a message. -/
inductive AppError
  | General (msg : String)
  | InvalidInt
  | QueryFailure (msg : String)
  | JsonError (msg : String)
deriving Repr, DecidableEq

/-- `AppResult` of `errors.rs`. -/
abbrev AppResult (α : Type) := Except AppError α

/-! ## Integer and date-literal parsing (models of `str::parse` and
`chrono` parsing, as used by `params.rs` and `date_range.rs`) -/

/-- The numeric value of a nonempty all-digit string, `none` otherwise.
(`params.rs` only ever parses capture groups of `\d+`, so the sign handling
of Rust's `str::parse` is never exercised.) -/
def natOfDigits (s : String) : Option Nat :=
  if s.data ≠ [] ∧ s.data.all Char.isDigit then
    some (s.data.foldl (fun acc c => acc * 10 + (c.toNat - 48)) 0)
  else none

/-- `str::parse::<i32>` on a `\d+` capture: the digits' value if it fits an
`i32`, `InvalidInt` otherwise (overflow included). -/
def parseI32 (s : String) : AppResult Int :=
  match natOfDigits s with
  | some n => if n ≤ 2147483647 then .ok (n : Int) else .error .InvalidInt
  | none => .error .InvalidInt

/-- `str::parse::<u32>` on a `\d+` capture. -/
def parseU32 (s : String) : AppResult Nat :=
  match natOfDigits s with
  | some n => if n ≤ 4294967295 then .ok n else .error .InvalidInt
  | none => .error .InvalidInt

/-- `str::parse::<usize>` on a `\d+` capture (64-bit `usize`). -/
def parseUsize (s : String) : AppResult Nat :=
  match natOfDigits s with
  | some n => if n ≤ 18446744073709551615 then .ok n else .error .InvalidInt
  | none => .error .InvalidInt

/-- Shape `\d{4}-\d{2}-\d{2}` as a character list. -/
def dateShape (cs : List Char) : Bool :=
  match cs with
  | [y1, y2, y3, y4, s1, m1, m2, s2, d1, d2] =>
    y1.isDigit && y2.isDigit && y3.isDigit && y4.isDigit && s1 = '-' &&
    m1.isDigit && m2.isDigit && s2 = '-' && d1.isDigit && d2.isDigit
  | _ => false

/-- Shape `\d{2}:\d{2}:\d{2}`. -/
def timeShape (cs : List Char) : Bool :=
  match cs with
  | [h1, h2, s1, m1, m2, s2, c1, c2] =>
    h1.isDigit && h2.isDigit && s1 = ':' && m1.isDigit && m2.isDigit &&
    s2 = ':' && c1.isDigit && c2.isDigit
  | _ => false

/-- Numeric value of a list of digit characters. -/
def digitsVal (cs : List Char) : Nat :=
  cs.foldl (fun acc c => acc * 10 + (c.toNat - 48)) 0

/-- Model of `NaiveDate::parse_from_str(s, "%Y-%m-%d")` composed with
`.and_hms(0, 0, 0)` (used by `DateTimeRange::parse_date_strs`): the input
has already matched `\d{4}-\d{2}-\d{2}`, so parsing succeeds exactly when
the literal is a calendar-valid date.  A parse failure maps to an
`AppError` (modelled as `General`; `errors.rs` has no dedicated variant for
chrono errors). -/
def parseDateLit (s : String) : AppResult DateTime :=
  match s.data with
  | [y1, y2, y3, y4, _, m1, m2, _, d1, d2] =>
    let y : Nat := digitsVal [y1, y2, y3, y4]
    let mo : Nat := digitsVal [m1, m2]
    let d : Nat := digitsVal [d1, d2]
    match fromYmdOpt (y : Int) mo d with
    | some date => .ok (DateTime.combine date 0)
    | none => .error (.General ("invalid date"))
  | _ => .error (.General ("invalid date"))

/-- Model of `NaiveDateTime::parse_from_str(s, "%Y-%m-%dT%H:%M:%S")` on an
input already matching the date-time shape. -/
def parseDateTimeLit (s : String) : AppResult DateTime :=
  match s.data with
  | [y1, y2, y3, y4, _, m1, m2, _, d1, d2, _, h1, h2, _, mi1, mi2, _, s1, s2] =>
    let y : Nat := digitsVal [y1, y2, y3, y4]
    let mo : Nat := digitsVal [m1, m2]
    let d : Nat := digitsVal [d1, d2]
    let hh : Nat := digitsVal [h1, h2]
    let mi : Nat := digitsVal [mi1, mi2]
    let ss : Nat := digitsVal [s1, s2]
    match fromYmdOpt (y : Int) mo d with
    | some date =>
      if hh ≤ 23 ∧ mi ≤ 59 ∧ ss ≤ 59 then
        .ok (DateTime.combine date (hh * 3600 + mi * 60 + ss))
      else .error (.General ("invalid time"))
    | none => .error (.General ("invalid date"))
  | _ => .error (.General ("invalid date"))

/-! ## `DateTimeRange` construction (`src/date_range.rs`) -/

/-- `DateTimeRange::new_date_time_range`.  The `Duration` constructors
`seconds`/`minutes`/`hours`/`days`/`weeks` are the corresponding numbers of
seconds. -/
def new_date_time_range (start stop : DateTime) (step unit : String) :
    AppResult DateTimeRange := do
  let step_n ← parseU32 step
  if unit = "m" then
    return .MonthlyStep
      { current_date := some start.dateOf
        time_of_day := start.timeOf
        stop := stop
        months := step_n }
  else
    let dur : Int ←
      if unit = "S" then pure (step_n : Int)
      else if unit = "M" then pure (step_n * 60 : Nat)
      else if unit = "H" then pure (step_n * 3600 : Nat)
      else if unit = "d" then pure (step_n * 86400 : Nat)
      else if unit = "w" then pure (step_n * 604800 : Nat)
      else .error (.General ("Invalid step unit"))
    return .FixedStep { start := start, stop := stop, step := dur }

/-- `DateTimeRange::parse_date_strs`. -/
def parse_date_strs (start stop step unit : String) : AppResult DateTimeRange := do
  let s ← parseDateLit start
  let e ← parseDateLit stop
  new_date_time_range s e step unit

/-- `DateTimeRange::parse_date_time_strs`. -/
def parse_date_time_strs (start stop step unit : String) : AppResult DateTimeRange := do
  let s ← parseDateTimeLit start
  let e ← parseDateTimeLit stop
  new_date_time_range s e step unit

/-! ## Embedding of `src/params.rs` -/

/-- A `cdrs` query `Value`, as produced by `params.rs` through the
`From<i32>` (integer ranges) and `From<&str>`/`From<String>` (literal
lists, formatted timestamps) conversions. -/
inductive Value
  | intVal (n : Int)
  | strVal (s : String)
deriving Repr, DecidableEq

/-- `QueryValues` of `params.rs` (the field `range: Range<i32>` of
`IntRange` is split into its `start`/`end` bounds `lo`/`hi`). -/
inductive QueryValues
  | IntRange (lo hi : Int) (step : Nat)
  | DTRange (range : DateTimeRange) (fmt : String)
  | Strings (xs : List String)
deriving Repr, DecidableEq

/-- `parse_int_range` of `params.rs`. -/
def parse_int_range (lo hi : String) (step : Option String) : AppResult QueryValues := do
  let lo ← parseI32 lo
  let hi ← parseI32 hi
  if lo ≥ hi then
    .error (.General (("range start ") ++ toString lo ++
      (" is greater/equal to range end ") ++ toString hi))
  else do
    let step ←
      match step with
      | some s => parseUsize s
      | none => pure 1
    return .IntRange lo hi step

/-- Split a character list at every occurrence of `c` (empty pieces
kept), as Rust's `str::split` does. -/
def splitOnChar (c : Char) : List Char → List (List Char)
  | [] => [[]]
  | x :: rest =>
    if x = c then [] :: splitOnChar c rest
    else
      match splitOnChar c rest with
      | [] => [[x]]
      | g :: gs => (x :: g) :: gs

/-- `comma_separated` of `params.rs` (`str::split(',')`). -/
def comma_separated (s : String) : List String :=
  (splitOnChar ',' s.data).map List.asString

/-- Longest digit prefix of a character list, with the remainder. -/
def spanDigits (cs : List Char) : List Char × List Char :=
  (cs.takeWhile Char.isDigit, cs.dropWhile Char.isDigit)

/-- Capture groups of the anchored regex
`^(\d+)\.\.(\d+)(?:/(\d+)(?:/(int|smallint|tinyint|bigint))?)?$`
(`INT_RANGE` of `params.rs`).  The character classes of adjacent regex
pieces are disjoint (digits never match `.` or `/`), so the regex is
deterministic and this greedy parse recognizes exactly its language. -/
def intRangeCaptures (s : String) :
    Option (String × String × Option String × Option String) :=
  let (a, r1) := spanDigits s.data
  if a = [] then none else
  match r1 with
  | '.' :: '.' :: r2 =>
    let (b, r3) := spanDigits r2
    if b = [] then none else
    match r3 with
    | [] => some (a.asString, b.asString, none, none)
    | '/' :: r4 =>
      let (c, r5) := spanDigits r4
      if c = [] then none else
      match r5 with
      | [] => some (a.asString, b.asString, some c.asString, none)
      | '/' :: r6 =>
        if r6.asString = "int" ∨ r6.asString = "smallint" ∨
           r6.asString = "tinyint" ∨ r6.asString = "bigint" then
          some (a.asString, b.asString, some c.asString, some r6.asString)
        else none
      | _ => none
    | _ => none
  | _ => none

/-- Character class of the `DATE_RANGE` format group: letters, `%`, dash, slash. -/
def isDateFmtChar (c : Char) : Bool :=
  (('a' ≤ c && c ≤ 'z') || ('A' ≤ c && c ≤ 'Z')) || c = '%' || c = '-' || c = '/'

/-- Character class of the `DATE_TIME_RANGE` format group: the date one plus `:`. -/
def isDateTimeFmtChar (c : Char) : Bool :=
  isDateFmtChar c || c = ':'

/-- Step/unit/format suffix `(?:/(\d+)([..])(?:/(fmt+))?)?$` shared by the
two date regexes; `isUnit` is the unit character class, `isFmt` the format
character class.  Returns `none` when the whole token cannot match,
`some none` when the suffix is absent, and `some (some (n, u, fmt?))`
otherwise. -/
def stepSuffixCaptures (isUnit : Char → Bool) (isFmt : Char → Bool)
    (cs : List Char) : Option (Option (String × String × Option String)) :=
  match cs with
  | [] => some none
  | '/' :: r =>
    let (n, r2) := spanDigits r
    if n = [] then none else
    match r2 with
    | u :: r3 =>
      if isUnit u then
        match r3 with
        | [] => some (some (n.asString, String.mk [u], none))
        | '/' :: r4 =>
          if r4 ≠ [] ∧ r4.all isFmt then
            some (some (n.asString, String.mk [u], some r4.asString))
          else none
        | _ => none
      else none
    | [] => none
  | _ => none

/-- Capture groups of the `DATE_RANGE` regex of `params.rs`: two 10-char
date literals joined by `..`, then the optional step suffix with unit class
`[mdw]` and the date format character class. -/
def dateRangeCaptures (s : String) :
    Option (String × String × Option (String × String × Option String)) :=
  let cs := s.data
  let d1 := cs.take 10
  let rest := cs.drop 10
  if dateShape d1 then
    match rest with
    | '.' :: '.' :: r2 =>
      let d2 := r2.take 10
      let rest2 := r2.drop 10
      if dateShape d2 then
        match stepSuffixCaptures (fun c => c = 'm' || c = 'd' || c = 'w')
            isDateFmtChar rest2 with
        | some suf => some (d1.asString, d2.asString, suf)
        | none => none
      else none
    | _ => none
  else none

/-- Shape `\d{4}-\d{2}-\d{2}T\d{2}:\d{2}:\d{2}`. -/
def dateTimeShape (cs : List Char) : Bool :=
  dateShape (cs.take 10) && cs.drop 10 ≠ [] && (cs.drop 10).head? = some 'T' &&
  timeShape (cs.drop 11) && cs.length = 19

/-- Capture groups of `DATE_TIME_RANGE` of `params.rs`. -/
def dateTimeRangeCaptures (s : String) :
    Option (String × String × Option (String × String × Option String)) :=
  let cs := s.data
  let d1 := cs.take 19
  let rest := cs.drop 19
  if dateTimeShape d1 then
    match rest with
    | '.' :: '.' :: r2 =>
      let d2 := r2.take 19
      let rest2 := r2.drop 19
      if dateTimeShape d2 then
        match stepSuffixCaptures
            (fun c => c = 'm' || c = 'd' || c = 'w' || c = 'H' || c = 'M' || c = 'S')
            isDateTimeFmtChar rest2 with
        | some suf => some (d1.asString, d2.asString, suf)
        | none => none
      else none
    | _ => none
  else none

/-- `parse_query_values` of `params.rs`.  In the two date branches the code
reads capture groups 3 and 4 with `matches.get(..).unwrap()`; a token that
matches the date regex without the optional `/Nu` suffix therefore panics,
which the `PanicOr` layer records. -/
def parse_query_values (s : String) : PanicOr (AppResult QueryValues) :=
  match intRangeCaptures s with
  | some (a, b, c, _) => .value (parse_int_range a b c)
  | none =>
  match dateRangeCaptures s with
  | some (d1, d2, suf) =>
    match suf with
    | none => .panic ("called Option::unwrap on a None value")
    | some (n, u, fmtOpt) =>
      .value (do
        let range ← parse_date_strs d1 d2 n u
        return .DTRange range (fmtOpt.getD DATE_FORMAT))
  | none =>
  match dateTimeRangeCaptures s with
  | some (d1, d2, suf) =>
    match suf with
    | none => .panic ("called Option::unwrap on a None value")
    | some (n, u, fmtOpt) =>
      .value (do
        let range ← parse_date_time_strs d1 d2 n u
        return .DTRange range (fmtOpt.getD DATE_TIME_FORMAT))
  | none => .value (.ok (.Strings (comma_separated s)))

/-- Zero-padded decimal rendering (used by the model of chrono
formatting). -/
def padNum (width n : Nat) : String :=
  let s := toString n
  (String.mk (List.replicate (width - s.length) '0')) ++ s

/-- Model of chrono's `format` for the directives a `kass` format string
can use (`%Y %m %d %H %M %S` plus literal characters; the regexes only
admit letters, `%`, `-`, `/` and `:` in a format string).  A directive
outside this set is rendered as itself — a simplification of the external
chrono formatter that no theorem below depends on. -/
def formatDateTime (fmt : String) (t : DateTime) : String :=
  let d := t.dateOf
  let secs := (t.timeOf).toNat
  let rec go : List Char → List Char
    | [] => []
    | '%' :: c :: rest =>
      let piece : String :=
        if c = 'Y' then
          (if d.year < 0 then ("-") ++ padNum 4 (-d.year).toNat else padNum 4 d.year.toNat)
        else if c = 'm' then padNum 2 d.month
        else if c = 'd' then padNum 2 d.day
        else if c = 'H' then padNum 2 (secs / 3600)
        else if c = 'M' then padNum 2 (secs / 60 % 60)
        else if c = 'S' then padNum 2 (secs % 60)
        else String.mk ['%', c]
      piece.data ++ go rest
    | c :: rest => c :: go rest
  (go fmt.data).asString

/-- The integer list produced by `(from..to).step_by(step)` for a nonzero
step: `from, from+step, ...`, strictly below `to`.  (The `step = 0` case is
unreachable: `to_cdrs_values` panics on it first, exactly as
`Iterator::step_by` does.) -/
def int_range_values (lo hi : Int) (step : Nat) : List Int :=
  if _h0 : step = 0 then []
  else if _h : lo < hi then lo :: int_range_values (lo + step) hi step
  else []
termination_by (hi - lo).toNat
decreasing_by
  omega

/-- `to_cdrs_values` of `params.rs`.  `fuel` bounds the length of the
iteration of a `DateTimeRange` (Rust's `collect` simply does not terminate
when the iterator is infinite, e.g. for a zero-length `Duration` step);
`none` reports that the fuel ran out before the iterator was exhausted. -/
def to_cdrs_values (fuel : Nat) (q : QueryValues) : PanicOr (Option (List Value)) :=
  match q with
  | .IntRange lo hi step =>
    if step = 0 then .panic ("Iterator::step_by called with a step of zero")
    else .value (some ((int_range_values lo hi step).map .intVal))
  | .Strings xs => .value (some (xs.map .strVal))
  | .DTRange range fmt => do
    let l ← range.collect fuel
    pure (l.map (fun ts => ts.map (fun x => Value.strVal (formatDateTime fmt x))))

/-- `itertools::multi_cartesian_product` on eagerly collected value lists:
for at least one factor it is the nested product with the rightmost factor
varying fastest; for an empty family it yields no tuples. -/
def multi_cartesian_product {α : Type} : List (List α) → List (List α)
  | [] => []
  | xs :: rest =>
    match rest with
    | [] => xs.map (fun x => [x])
    | _ :: _ => xs.flatMap (fun x => (multi_cartesian_product rest).map (fun t => x :: t))

/-- `parse_args` of `params.rs`.  The `collect::<AppResult<Vec<_>>>` over
the lazily mapped argument iterator stops at the first `Err`, so later
arguments are neither parsed nor expanded once an error occurs. -/
def parse_args_values (fuel : Nat) : List String → PanicOr (Option (AppResult (List (List Value))))
  | [] => pure (some (.ok []))
  | arg :: rest => do
    let pq ← parse_query_values arg
    match pq with
    | .error e => pure (some (.error e))
    | .ok q => do
      let vs ← to_cdrs_values fuel q
      match vs with
      | none => pure none
      | some v => do
        let tail ← parse_args_values fuel rest
        pure (tail.map (fun t => t.map (fun l => v :: l)))

/-- `parse_args` of `params.rs` (composition of per-argument expansion with
the cartesian product). -/
def parse_args (fuel : Nat) (args : List String) :
    PanicOr (Option (AppResult (List (List Value)))) := do
  let r ← parse_args_values fuel args
  pure (r.map (fun res => res.map multi_cartesian_product))

/-! ## Embedding of `src/iterator_consumer.rs`

`IteratorConsumer::consume` takes the first `n` items of the input
iterator, spawns one worker thread per item, and shares the rest of the
iterator (behind a mutex) and a write-once-ish error cell (behind an
rwlock) among the workers.  Each worker loops: it reads the error cell
(`no_error`); if an error is recorded it stops; otherwise, if its last
result was `Ok` it claims the next item from the shared iterator (stopping
when that is exhausted) and runs the action on it, and if its last result
was `Err` it records the error (an unconditional overwrite) and stops.

The model is a small-step state machine.  Atomic steps are exactly the
lock-protected interactions of a worker with the shared state: reading the
error cell, claiming the next queue item (running the pure action on it is
folded into the same step, as the action touches no shared state), and
writing the error cell.  A schedule is an arbitrary list of worker
indices; `exec` runs one atomic step of the chosen worker per entry
(out-of-range indices and finished workers leave the state unchanged), so
the reachable states over all schedules are exactly the interleavings of
the worker threads. -/

/-- The control point of one worker between two interactions with the
shared state: `check r` — about to read the error cell while holding
result `r`; `claim` — passed the check with an `Ok` result, about to lock
the queue; `failing e` — passed the check with `Err e`, about to write the
error cell; `done` — thread finished. -/
inductive WorkerState (ε : Type) : Type
  | check (r : Except ε Unit)
  | claim
  | failing (e : ε)
  | done
deriving Repr

/-- The shared state of `consume` plus every worker's control point:
`queue` is the un-taken remainder of the input iterator, `err` the error
cell. -/
structure ConsumerState (α ε : Type) : Type where
  queue : List α
  workers : List (WorkerState ε)
  err : Option ε
deriving Repr

/-- One atomic step of a single worker (see `WorkerState`): returns the
worker's next control point and the updated shared queue and error cell. -/
def stepWorker (f : α → Except ε Unit) (q : List α) (er : Option ε) :
    WorkerState ε → WorkerState ε × List α × Option ε
  | .done => (.done, q, er)
  | .check r =>
    if er.isSome then (.done, q, er)
    else
      match r with
      | .ok _ => (.claim, q, er)
      | .error e => (.failing e, q, er)
  | .failing e => (.done, q, some e)
  | .claim =>
    match q with
    | [] => (.done, q, er)
    | x :: rest => (.check (f x), rest, er)

/-- Step worker number `i` of the worker list (no effect when `i` is out
of range). -/
def stepAt (f : α → Except ε Unit) :
    List (WorkerState ε) → Nat → List α → Option ε →
    List (WorkerState ε) × List α × Option ε
  | [], _, q, er => ([], q, er)
  | w :: ws, 0, q, er =>
    let (w', q', er') := stepWorker f q er w
    (w' :: ws, q', er')
  | w :: ws, i + 1, q, er =>
    let (ws', q', er') := stepAt f ws i q er
    (w :: ws', q', er')

/-- One scheduler step: worker `i` performs its next atomic action. -/
def step (f : α → Except ε Unit) (s : ConsumerState α ε) (i : Nat) : ConsumerState α ε :=
  let (ws, q, er) := stepAt f s.workers i s.queue s.err
  { queue := q, workers := ws, err := er }

/-- Run a schedule (a list of worker choices). -/
def exec (f : α → Except ε Unit) (s : ConsumerState α ε) : List Nat → ConsumerState α ε
  | [] => s
  | i :: rest => exec f (step f s i) rest

/-- The state of `consume(n, f)` on input `xs` right after spawning: the
first `n` items are pre-assigned, one per worker, and each worker has
already run `f` on its item and sits at the top of its loop; the rest of
the input is the shared queue. -/
def initState (f : α → Except ε Unit) (xs : List α) (n : Nat) : ConsumerState α ε :=
  { queue := xs.drop n
    workers := (xs.take n).map (fun x => .check (f x))
    err := none }

/-- Has this worker's thread terminated? -/
def WorkerState.isDone : WorkerState ε → Bool
  | .done => true
  | _ => false

/-- All workers joined (the join barrier of `consume` has passed). -/
def allDone (s : ConsumerState α ε) : Bool := s.workers.all WorkerState.isDone

/-- The value `consume` returns once all workers joined: the recorded
error if any, `Ok(())` otherwise. -/
def consumeResult (s : ConsumerState α ε) : Except ε Unit :=
  match s.err with
  | some e => .error e
  | none => .ok ()

/-- A worker that can never write the error cell: finished, claiming, or
checking with an `Ok` result. -/
def goodW : WorkerState ε → Prop
  | .check r => r = .ok ()
  | .claim => True
  | .done => True
  | .failing _ => False

/-- A good worker that has not finished yet. -/
def activeW : WorkerState ε → Prop
  | .check r => r = .ok ()
  | .claim => True
  | _ => False

/-- A worker holding the failure `e` on its way to the error cell. -/
def badW (e : ε) : WorkerState ε → Prop
  | .check r => r = .error e
  | .failing e' => e' = e
  | _ => False

/-- Invariant of the all-successful run: no error recorded, every queued
item succeeds, every worker is good. -/
def InvOk (f : α → Except ε Unit) (s : ConsumerState α ε) : Prop :=
  s.err = none ∧ (∀ y ∈ s.queue, f y = .ok ()) ∧ ∀ w ∈ s.workers, goodW w

/-- Single-failure invariant, phase A: the failing item `x` still sits in
the shared queue (surrounded by succeeding items), no error is recorded,
and every worker is active and good — no worker can finish while the
queue is nonempty and the error cell empty. -/
def InvA (f : α → Except ε Unit) (x : α) (s : ConsumerState α ε) : Prop :=
  s.err = none ∧
  (∃ q1 q2, s.queue = q1 ++ x :: q2 ∧ ∀ y ∈ q1 ++ q2, f y = .ok ()) ∧
  (∀ w ∈ s.workers, activeW w) ∧ s.workers ≠ []

/-- Single-failure invariant, phase B: some worker holds the failure `e`,
no error is recorded yet, and the queue holds only succeeding items. -/
def InvB (f : α → Except ε Unit) (e : ε) (s : ConsumerState α ε) : Prop :=
  s.err = none ∧ (∀ y ∈ s.queue, f y = .ok ()) ∧
  (∃ w ∈ s.workers, badW e w) ∧ (∀ w ∈ s.workers, goodW w ∨ badW e w)

/-- Single-failure invariant, phase C: the error cell holds `e`; any
worker still carrying `e` can only rewrite the same value. -/
def InvC (f : α → Except ε Unit) (e : ε) (s : ConsumerState α ε) : Prop :=
  s.err = some e ∧ (∀ y ∈ s.queue, f y = .ok ()) ∧
  ∀ w ∈ s.workers, goodW w ∨ badW e w

/-! ## Embedding of `src/types.rs` -/

/-- `cdrs::frame::frame_result::ColType` (the wire type tag). -/
inductive ColType
  | Custom | Ascii | Bigint | Blob | Boolean | Counter | Decimal | Double
  | Float | Int | Timestamp | Uuid | Varchar | Varint | Timeuuid | Inet
  | Date | Time | Smallint | Tinyint | List | Map | Set | Udt | Tuple | Null
deriving Repr, DecidableEq

mutual

/-- `cdrs::frame::frame_result::ColTypeOption`: the type tag plus its
nested type metadata. -/
inductive ColTypeOption : Type
  | mk (id : ColType) (value : Option ColTypeOptionValue)

/-- `cdrs::frame::frame_result::ColTypeOptionValue`, restricted to the
shapes `types.rs` consumes: element types of lists/sets, the key/value
type pair of maps, the positional types of tuples, and the named field
types of UDTs. -/
inductive ColTypeOptionValue : Type
  | CList (elem : ColTypeOption)
  | CSet (elem : ColTypeOption)
  | CMap (key_meta : ColTypeOption) (value_meta : ColTypeOption)
  | TupleType (types : List ColTypeOption)
  | UdtType (descriptions : List (String × ColTypeOption))

end

/-- `id` accessor of `ColTypeOption`. -/
def ColTypeOption.id : ColTypeOption → ColType
  | .mk i _ => i

/-- `value` accessor of `ColTypeOption`. -/
def ColTypeOption.val : ColTypeOption → Option ColTypeOptionValue
  | .mk _ v => v

/-- `cdrs::types::CBytes`: `none` models the protocol's explicit
no-value/null marker (`as_plain()` returning `None`), `some bs` a plain
byte payload. -/
abbrev CBytes := Option (List Nat)

/-- Errors of the decoder (`cdrs::error::Error`, message only). -/
abbrev CError := String

/-! ### Modelled external cdrs primitive decoders

`types.rs` calls the byte-level decoders of
`cdrs::types::data_serialization_types`; they are external library code,
modelled here by simple executable stand-ins over a concrete modelled wire
format.  No theorem below depends on their internals — only on how
`types.rs` composes them and classifies their results. -/

/-- Modelled external decoder: text bytes to a string (stands in for
`decode_varchar` / `decode_ascii` / `decode_custom`). -/
def decodeText (bytes : List Nat) : Except CError String :=
  .ok (String.mk (bytes.map Char.ofNat))

/-- Modelled external decoder: fixed-width big-endian two's-complement
integer of `w` bytes (stands in for `decode_tinyint` (1),
`decode_smallint` (2), `decode_int` (4), `decode_bigint` (8)). -/
def decodeIntBE (w : Nat) (bytes : List Nat) : Except CError Int :=
  if bytes.length = w then
    let u : Nat := bytes.foldl (fun acc b => acc * 256 + b % 256) 0
    .ok (if u < 2 ^ (8 * w - 1) then (u : Int) else (u : Int) - 2 ^ (8 * w))
  else .error ("wrong integer width")

/-- Modelled external decoder for `decode_varint` (arbitrary-length
big-endian two's complement). -/
def decodeVarint (bytes : List Nat) : Except CError Int :=
  match bytes with
  | [] => .error ("empty varint")
  | b :: _ =>
    let u : Nat := bytes.foldl (fun acc b => acc * 256 + b % 256) 0
    .ok (if b % 256 < 128 then (u : Int) else (u : Int) - 2 ^ (8 * bytes.length))

/-- Modelled external decoder for `decode_decimal` (a scale byte followed
by the unscaled big-endian integer; the real cdrs wire format carries a
4-byte scale, which no theorem below depends on). -/
def decodeDecimalBytes (bytes : List Nat) : Except CError (Int × Nat) :=
  match bytes with
  | s :: rest => (decodeVarint rest).map (fun u => (u, s))
  | [] => .error ("malformed decimal")

/-- Modelled external decoder for `decode_boolean`. -/
def decodeBoolean (bytes : List Nat) : Except CError Bool :=
  match bytes with
  | [b] => .ok (b ≠ 0)
  | _ => .error ("wrong boolean width")

/-- Modelled collection wire format, standing in for
`decode_list`/`decode_set`/`decode_map`/`decode_tuple`/`decode_udt`: a
count byte followed by chunks, each a length byte followed by that many
payload bytes (length byte 255 marks a null chunk). -/
def readChunk (bytes : List Nat) : Option (CBytes × List Nat) :=
  match bytes with
  | [] => none
  | l :: rest =>
    if l = 255 then some (none, rest)
    else if rest.length < l then none
    else some (some (rest.take l), rest.drop l)

/-- Read `k` chunks of the modelled collection wire format. -/
def readChunks (k : Nat) (bytes : List Nat) : Option (List CBytes × List Nat) :=
  match k with
  | 0 => some ([], bytes)
  | k + 1 => do
    let (c, rest) ← readChunk bytes
    let (cs, rest') ← readChunks k rest
    pure (c :: cs, rest')

/-- Modelled external `decode_list` / `decode_set`: the element payloads
of a collection value. -/
def decodeListBytes (bytes : List Nat) : Except CError (List CBytes) :=
  match bytes with
  | [] => .error ("empty collection")
  | n :: rest =>
    match readChunks n rest with
    | some (cs, []) => .ok cs
    | _ => .error ("malformed collection")

/-- Modelled external `decode_map`: key/value payload pairs. -/
def decodeMapBytes (bytes : List Nat) : Except CError (List (CBytes × CBytes)) :=
  match bytes with
  | [] => .error ("empty map")
  | n :: rest =>
    match readChunks (2 * n) rest with
    | some (cs, []) =>
      .ok ((List.range n).map (fun i => (cs.getD (2 * i) none, cs.getD (2 * i + 1) none)))
    | _ => .error ("malformed map")

/-- Modelled external `decode_tuple`/`decode_udt`: exactly `arity`
length-prefixed payloads. -/
def decodeTupleBytes (bytes : List Nat) (arity : Nat) : Except CError (List CBytes) :=
  match readChunks arity bytes with
  | some (cs, []) => .ok cs
  | _ => .error ("malformed tuple")

/-- `ColValue` of `types.rs`.  `f32`/`f64` payloads (`Double`) keep their
raw IEEE bytes — no claim depends on float semantics.  `Decimal` keeps the
unscaled integer and scale, `Date` a calendar date, `Time` seconds and
nanoseconds since midnight, `Timestamp` milliseconds since the epoch,
`Inet`/`Uuid`/`Blob` their raw bytes.  `Map` is an association list: the
Rust `HashMap` forgets insertion order, but every theorem below concerns
only decode success or failure. -/
inductive ColValue : Type
  | Null
  | Int (x : Int)
  | Double (bits : List Nat)
  | Decimal (unscaled : Int) (scale : Nat)
  | String (s : String)
  | Blob (bytes : List Nat)
  | Date (d : Kass.Date)
  | Time (secs : Nat) (nano : Nat)
  | Timestamp (millis : Int)
  | Inet (bytes : List Nat)
  | Uuid (bytes : List Nat)
  | Boolean (b : Bool)
  | Seq (xs : List ColValue)
  | Map (xs : List (String × ColValue))
deriving Repr

/-- Uppercase hex digit. -/
def hexDigit (n : Nat) : Char :=
  if n < 10 then Char.ofNat (48 + n) else Char.ofNat (55 + n % 16)

/-- `Blob::to_hex_string` of `types.rs` (`{:02X}` per byte). -/
def bytesHex (bs : List Nat) : String :=
  String.mk (bs.flatMap (fun b => [hexDigit (b % 256 / 16), hexDigit (b % 16)]))

/-- Modelled `Display` of `chrono::NaiveDate` (`YYYY-MM-DD`). -/
def dateDisplay (d : Date) : String :=
  (if d.year < 0 then ("-") ++ padNum 4 (-d.year).toNat else padNum 4 d.year.toNat) ++
  ("-") ++ padNum 2 d.month ++ ("-") ++ padNum 2 d.day

/-- Modelled `Display` of `chrono::NaiveTime` (`HH:MM:SS` plus the
fractional part when nonzero). -/
def timeDisplay (secs nano : Nat) : String :=
  padNum 2 (secs / 3600) ++ (":") ++ padNum 2 (secs / 60 % 60) ++ (":") ++
  padNum 2 (secs % 60) ++ (if nano = 0 then ("") else ("." ) ++ padNum 9 nano)

/-- Modelled `Display` of `chrono::DateTime<Utc>` for a
milliseconds-since-epoch value (`YYYY-MM-DD HH:MM:SS[.frac] UTC`). -/
def timestampDisplay (millis : Int) : String :=
  let secs := Int.fdiv millis 1000
  let ms := (Int.emod millis 1000).toNat
  let d := DateTime.dateOf secs
  let t := (DateTime.timeOf secs).toNat
  dateDisplay d ++ (" ") ++ timeDisplay t 0 ++
  (if ms = 0 then ("") else (".") ++ padNum 3 ms) ++ (" UTC")

/-- Modelled `Display` of `std::net::IpAddr` on the raw address bytes. -/
def inetDisplay (bs : List Nat) : String :=
  String.intercalate (".") (bs.map (fun b => toString (b % 256)))

/-- Modelled `Uuid::to_hyphenated_string` on the raw 16 bytes. -/
def uuidDisplay (bs : List Nat) : String :=
  let h := fun l => bytesHex l
  h (bs.take 4) ++ ("-") ++ h ((bs.drop 4).take 2) ++ ("-") ++
  h ((bs.drop 6).take 2) ++ ("-") ++ h ((bs.drop 8).take 2) ++ ("-") ++ h (bs.drop 10)

/-- The Rust `String` type (named so that it stays visible inside the
`ColValue` namespace, where `String` denotes the constructor). -/
abbrev RustString : Type := String

/-- `ColValue::into_map_key` of `types.rs`: the canonical string form for
the primitive-like variants, the `Unexpected map key type` error for the
catch-all (`Null`, `Seq`, `Map`). -/
def ColValue.into_map_key : ColValue → Except CError RustString
  | .String x => .ok x
  | .Int x => .ok (toString x)
  | .Boolean x => .ok (toString x)
  | .Double bits => .ok (bytesHex bits)
  | .Date d => .ok (dateDisplay d)
  | .Time s n => .ok (timeDisplay s n)
  | .Timestamp ms => .ok (timestampDisplay ms)
  | .Inet bs => .ok (inetDisplay bs)
  | .Uuid bs => .ok (uuidDisplay bs)
  | .Blob bs => .ok (bytesHex bs)
  | .Decimal _ _ => .error ("Unexpected map key type")
  | .Null => .error ("Unexpected map key type")
  | .Seq _ => .error ("Unexpected map key type")
  | .Map _ => .error ("Unexpected map key type")

/-- `to_time` of `types.rs`: split nanoseconds-since-midnight into whole
seconds and remainder nanoseconds (`try_into().unwrap_or(0)` clamps a
negative input to 0). -/
def to_time (t : Int) : Nat × Nat :=
  ((Int.tdiv t 1000000000).toNat, (Int.tmod t 1000000000).toNat)

/-- `to_date` of `types.rs`: a day count to a calendar date (via
`Utc.timestamp_millis(d * 86400000).naive_utc().date()`). -/
def to_date (d : Int) : Date := daysToCivil d

mutual

/-- `ColValue::decode` of `types.rs`: the explicit no-value marker decodes
to `Null`; otherwise the wire type tag selects the decoding of the raw
bytes, recursing through the type metadata for collections, maps, tuples
and UDTs.  The match over `ColType` is exhaustive — the Rust `match` has
no wildcard arm. -/
def ColValue.decode (col_type : ColTypeOption) (data : CBytes) : Except CError ColValue :=
  match data with
  | none => .ok .Null
  | some bytes =>
    match col_type with
    | .mk id val =>
      match id with
      | .Null => .ok .Null
      | .Varchar => (decodeText bytes).map .String
      | .Ascii => (decodeText bytes).map .String
      | .Custom => (decodeText bytes).map .String
      | .Tinyint => (decodeIntBE 1 bytes).map .Int
      | .Smallint => (decodeIntBE 2 bytes).map .Int
      | .Int => (decodeIntBE 4 bytes).map .Int
      | .Bigint => (decodeIntBE 8 bytes).map .Int
      | .Varint => (decodeVarint bytes).map .Int
      | .Counter => (decodeIntBE 8 bytes).map .Int
      | .Float => .ok (.Double bytes)
      | .Double => .ok (.Double bytes)
      | .Decimal => (decodeDecimalBytes bytes).map (fun p => .Decimal p.1 p.2)
      | .Boolean => (decodeBoolean bytes).map .Boolean
      | .Date => (decodeIntBE 4 bytes).map (fun d => .Date (to_date d))
      | .Time => (decodeIntBE 8 bytes).map (fun t => .Time (to_time t).1 (to_time t).2)
      | .Timestamp => (decodeIntBE 8 bytes).map .Timestamp
      | .Inet => .ok (.Inet bytes)
      | .Uuid => .ok (.Uuid bytes)
      | .Timeuuid => .ok (.Uuid bytes)
      | .List => do
        let items ← decodeListBytes bytes
        (to_seq val items).map .Seq
      | .Set => do
        let items ← decodeListBytes bytes
        (to_seq val items).map .Seq
      | .Map => do
        let entries ← decodeMapBytes bytes
        (to_map val entries).map .Map
      | .Tuple => (to_tuple val bytes).map .Seq
      | .Udt => (to_udt val bytes).map .Map
      | .Blob => .ok (.Blob bytes)
termination_by (sizeOf col_type, 0, 0)

/-- `to_seq` of `types.rs`: element-wise decode of a list/set with the
element type from the metadata. -/
def to_seq (meta : Option ColTypeOptionValue) (data : List CBytes) :
    Except CError (List ColValue) :=
  match meta with
  | some (.CList elem) => decodeEach elem data
  | some (.CSet elem) => decodeEach elem data
  | _ => .error ("Error converting list/set")
termination_by (sizeOf meta, 0, 0)

/-- The `data.iter().map(|x| ColValue::decode(elem_type, x)).collect()`
of `to_seq` (short-circuiting at the first error). -/
def decodeEach (t : ColTypeOption) (l : List CBytes) : Except CError (List ColValue) :=
  match l with
  | [] => .ok []
  | x :: rest => do
    let v ← ColValue.decode t x
    let vs ← decodeEach t rest
    .ok (v :: vs)
termination_by (sizeOf t, 1, l.length)

/-- `to_map` of `types.rs`: entry-wise decode with the key/value types
from the metadata. -/
def to_map (meta : Option ColTypeOptionValue) (data : List (CBytes × CBytes)) :
    Except CError (List (String × ColValue)) :=
  match meta with
  | some (.CMap km vm) => decodeEntries km vm data
  | _ => .error ("Error converting map")
termination_by (sizeOf meta, 0, 0)

/-- The entry loop of `to_map`: decode the key, coerce it with
`into_map_key`, decode the value; collect short-circuits at the first
error. -/
def decodeEntries (km vm : ColTypeOption) (l : List (CBytes × CBytes)) :
    Except CError (List (String × ColValue)) :=
  match l with
  | [] => .ok []
  | (k, v) :: rest => do
    let kv ← ColValue.decode km k
    let key ← kv.into_map_key
    let value ← ColValue.decode vm v
    let tail ← decodeEntries km vm rest
    .ok ((key, value) :: tail)
termination_by (sizeOf km + sizeOf vm + 1, 0, l.length)

/-- `to_tuple` of `types.rs`: positional decode with the arity and types
from the metadata. -/
def to_tuple (meta : Option ColTypeOptionValue) (bytes : List Nat) :
    Except CError (List ColValue) :=
  match meta with
  | some (.TupleType ts) => do
    let data ← decodeTupleBytes bytes ts.length
    decodeZip ts data
  | _ => .error ("Error converting tuple")
termination_by (sizeOf meta, 0, 0)

/-- The `types.iter().zip(data.iter())` loop of `to_tuple` (the zip stops
at the shorter list, as in Rust). -/
def decodeZip (ts : List ColTypeOption) (xs : List CBytes) :
    Except CError (List ColValue) :=
  match ts, xs with
  | t :: ts', x :: xs' => do
    let v ← ColValue.decode t x
    let vs ← decodeZip ts' xs'
    .ok (v :: vs)
  | _, _ => .ok []
termination_by (sizeOf ts, 1, xs.length)

/-- `to_udt` of `types.rs`: field-by-field decode with names and types
from the metadata. -/
def to_udt (meta : Option ColTypeOptionValue) (bytes : List Nat) :
    Except CError (List (String × ColValue)) :=
  match meta with
  | some (.UdtType descs) => do
    let data ← decodeTupleBytes bytes descs.length
    decodeFields descs data
  | _ => .error ("Error converting UDT")
termination_by (sizeOf meta, 0, 0)

/-- The field loop of `to_udt` (zip of descriptions and payloads). -/
def decodeFields (ds : List (String × ColTypeOption)) (xs : List CBytes) :
    Except CError (List (String × ColValue)) :=
  match ds, xs with
  | (name, t) :: ds', x :: xs' => do
    let v ← ColValue.decode t x
    let rest ← decodeFields ds' xs'
    .ok ((name, v) :: rest)
  | _, _ => .ok []
termination_by (sizeOf ds, 1, xs.length)

end

/-! ## Embedding of `src/convert.rs` (string renderers for json.rs) -/

/-- `to_date_time_str` of `convert.rs` (RFC 3339 with milliseconds, `Z`
suffix; rendering modelled through the civil-day arithmetic). -/
def to_date_time_str (ts : Int) : String :=
  let secs := Int.fdiv ts 1000
  let ms := (Int.emod ts 1000).toNat
  let d := DateTime.dateOf secs
  let t := (DateTime.timeOf secs).toNat
  dateDisplay d ++ ("T") ++ timeDisplay t 0 ++ (".") ++ padNum 3 ms ++ ("Z")

/-- `to_time_str` of `convert.rs`; the `try_into().expect(..)` panics on a
negative nanosecond count. -/
def to_time_str (t : Int) : PanicOr String :=
  if t < 0 then .panic ("Value out of range")
  else
    let secs := (Int.tdiv t 1000000000).toNat
    let nano := (Int.tmod t 1000000000).toNat
    .value (padNum 2 (secs / 3600) ++ (":") ++ padNum 2 (secs / 60 % 60) ++ (":") ++
      padNum 2 (secs % 60) ++ (".") ++ padNum 3 (nano / 1000000))

/-- `to_date_str` of `convert.rs`. -/
def to_date_str (d : Int) : String := dateDisplay (daysToCivil d)

/-- `to_ip_str` of `convert.rs` (modelled `Display` of the address). -/
def to_ip_str (bs : List Nat) : String := inetDisplay bs

/-- `to_uuid_str` of `convert.rs` (modelled hyphenated rendering). -/
def to_uuid_str (bs : List Nat) : String := uuidDisplay bs

/-! ## Embedding of `src/json.rs` -/

/-- A `serde_json::Value` as far as `json.rs` produces one (floats keep
their raw bytes; objects are association lists in column order — the
serde map's own key ordering is irrelevant to every theorem below). -/
inductive JValue
  | null
  | str (s : String)
  | num (n : Int)
  | float (bits : List Nat)
  | bool (b : Bool)
deriving Repr, DecidableEq

/-- One already-converted row cell, as handed to `json.rs` by the cdrs
`IntoRustByIndex` accessor: the typed Rust value for the requested column
type.  This models the external cdrs conversion layer; `json.rs` only
chooses which type to request and wraps the result. -/
inductive CellVal
  | cellStr (s : String)
  | cellI8 (n : Int)
  | cellI16 (n : Int)
  | cellI32 (n : Int)
  | cellI64 (n : Int)
  | cellF32 (bits : List Nat)
  | cellF64 (bits : List Nat)
  | cellBool (b : Bool)
  | cellDate (days : Int)
  | cellTime (nanos : Int)
  | cellTimestamp (millis : Int)
  | cellInet (bytes : List Nat)
  | cellUuid (bytes : List Nat)
  | cellBlob (bytes : List Nat)
deriving Repr, DecidableEq

/-- A row, modelling `Row`/`IntoRustByIndex` of cdrs: per column index,
either no value (a null column) or the cell's typed value. -/
abbrev JsonRow := Nat → Option CellVal

/-- `col_to_json`/`convert_col_to_json` of `json.rs`, specialised by a
checked extraction: requesting a column as a mismatching Rust type is the
external accessor's conversion error. -/
def convert_col_to_json (i : Nat) (row : JsonRow)
    (f : CellVal → PanicOr (Except CError JValue)) : PanicOr (Except CError JValue) :=
  match row i with
  | none => .value (.ok .null)
  | some cell => f cell

/-- `row_to_json` of `src/json.rs` (the serialization of the resulting
object to a JSON string is dropped; the object itself is returned).  Every
wire type without an explicit arm — `Blob`, `Decimal`, `Varint`, `Custom`,
`Timeuuid`, `List`, `Map`, `Set`, `Udt`, `Tuple` — falls into the `_ =>
Value::Null` arm, which does not consult the row at all. -/
def json_row_to_json (meta : List (String × ColType)) (row : JsonRow) :
    PanicOr (Except CError (List (String × JValue))) :=
  let rec go (i : Nat) : List (String × ColType) → PanicOr (Except CError (List (String × JValue)))
    | [] => .value (.ok [])
    | (name, ct) :: cols => do
      let v : PanicOr (Except CError JValue) :=
        match ct with
        | .Varchar | .Ascii =>
          convert_col_to_json i row (fun c =>
            match c with
            | .cellStr s => .value (.ok (.str s))
            | _ => .value (.error ("conversion error")))
        | .Tinyint =>
          convert_col_to_json i row (fun c =>
            match c with
            | .cellI8 n => .value (.ok (.num n))
            | _ => .value (.error ("conversion error")))
        | .Smallint =>
          convert_col_to_json i row (fun c =>
            match c with
            | .cellI16 n => .value (.ok (.num n))
            | _ => .value (.error ("conversion error")))
        | .Int =>
          convert_col_to_json i row (fun c =>
            match c with
            | .cellI32 n => .value (.ok (.num n))
            | _ => .value (.error ("conversion error")))
        | .Bigint | .Counter =>
          convert_col_to_json i row (fun c =>
            match c with
            | .cellI64 n => .value (.ok (.num n))
            | _ => .value (.error ("conversion error")))
        | .Float =>
          convert_col_to_json i row (fun c =>
            match c with
            | .cellF32 bits => .value (.ok (.float bits))
            | _ => .value (.error ("conversion error")))
        | .Double =>
          convert_col_to_json i row (fun c =>
            match c with
            | .cellF64 bits => .value (.ok (.float bits))
            | _ => .value (.error ("conversion error")))
        | .Boolean =>
          convert_col_to_json i row (fun c =>
            match c with
            | .cellBool b => .value (.ok (.bool b))
            | _ => .value (.error ("conversion error")))
        | .Date =>
          convert_col_to_json i row (fun c =>
            match c with
            | .cellDate d => .value (.ok (.str (to_date_str d)))
            | _ => .value (.error ("conversion error")))
        | .Time =>
          convert_col_to_json i row (fun c =>
            match c with
            | .cellTime t => (to_time_str t).map (fun s => .ok (.str s))
            | _ => .value (.error ("conversion error")))
        | .Timestamp =>
          convert_col_to_json i row (fun c =>
            match c with
            | .cellTimestamp t => .value (.ok (.str (to_date_time_str t)))
            | _ => .value (.error ("conversion error")))
        | .Inet =>
          convert_col_to_json i row (fun c =>
            match c with
            | .cellInet bs => .value (.ok (.str (to_ip_str bs)))
            | _ => .value (.error ("conversion error")))
        | .Uuid =>
          convert_col_to_json i row (fun c =>
            match c with
            | .cellUuid bs => .value (.ok (.str (to_uuid_str bs)))
            | _ => .value (.error ("conversion error")))
        | .Null => .value (.ok .null)
        | _ => .value (.ok .null)
      match (← v) with
      | .error e => .value (.error e)
      | .ok jv => do
        match (← go (i + 1) cols) with
        | .error e => .value (.error e)
        | .ok rest => .value (.ok ((name, jv) :: rest))
  go 0 meta

/-! ## Theorems -/

/-- `pure` on `PanicOr`, unfolded. -/
theorem panicOr_pure_eq {α : Type u} (a : α) : (pure a : PanicOr α) = .value a := rfl

/-- `bind` on a `PanicOr` value, unfolded. -/
theorem panicOr_bind_value {α β : Type u} (a : α) (f : α → PanicOr β) :
    (PanicOr.value a) >>= f = f a := rfl

/-- `bind` on a `PanicOr` panic, unfolded. -/
theorem panicOr_bind_panic {α β : Type u} (m : String) (f : α → PanicOr β) :
    (PanicOr.panic m : PanicOr α) >>= f = .panic m := rfl

/-- Closed form of the `step_by` loop: `(lo..hi).step_by(step)` is
`lo + i * step` for `i` below `ceil((hi - lo) / step)`. -/
theorem int_range_values_eq (step : Nat) (hs : 1 ≤ step) :
    ∀ lo hi : Int, int_range_values lo hi step =
      (List.range (((hi - lo).toNat + step - 1) / step)).map (fun i => lo + Int.ofNat i * step) := by
  have main : ∀ (n : Nat) (lo hi : Int), (hi - lo).toNat = n →
      int_range_values lo hi step =
        (List.range (((hi - lo).toNat + step - 1) / step)).map (fun i => lo + Int.ofNat i * step) := by
    intro n
    induction n using Nat.strong_induction_on with
    | _ n IH =>
      intro lo hi hn
      rw [int_range_values.eq_def]
      rw [dif_neg (by omega : ¬ step = 0)]
      by_cases hlt : lo < hi
      · rw [dif_pos hlt]
        have hD : 1 ≤ (hi - lo).toNat := by omega
        have hD' : (hi - (lo + step)).toNat = (hi - lo).toNat - step := by omega
        have hcount : ((hi - lo).toNat + step - 1) / step =
            (((hi - lo).toNat - step) + step - 1) / step + 1 := by
          rcases le_or_lt (hi - lo).toNat step with hds | hds
          · have h1 : ((hi - lo).toNat + step - 1) / step = 1 :=
              Nat.div_eq_of_lt_le (by omega) (by omega)
            have hz : (hi - lo).toNat - step = 0 := by omega
            rw [h1, hz, Nat.div_eq_of_lt (by omega : 0 + step - 1 < step)]
          · have he : (hi - lo).toNat + step - 1 =
                (((hi - lo).toNat - step) + step - 1) + step := by omega
            rw [he, Nat.add_div_right _ (by omega : 0 < step)]
        rw [hcount, List.range_succ_eq_map, List.map_cons, List.map_map]
        have hrec := IH ((hi - (lo + step)).toNat) (by omega) (lo + step) hi rfl
        rw [hrec, hD']
        congr 1
        · simp
        · apply List.map_congr_left
          intro i _
          simp only [Function.comp, Int.ofNat_eq_coe]
          push_cast
          ring
      · rw [dif_neg hlt]
        have h0 : (hi - lo).toNat = 0 := by omega
        rw [h0, Nat.div_eq_of_lt (by omega : 0 + step - 1 < step)]
        simp
  intro lo hi
  exact main ((hi - lo).toNat) lo hi rfl

/-- C2 (counterexample): a date-time range token whose start equals its
end parses successfully (into a fixed interval that will simply yield no
timestamps) instead of failing with the invalid-range error — only the
integer-range grammar checks `start >= end`. -/
theorem c2_date_range_reversed_ok_cex :
    parse_query_values ("2019-09-01T10:32:20..2019-09-01T10:32:20/1H") =
      .value (.ok (.DTRange
        (.FixedStep ⟨mkDateTime 2019 9 1 10 32 20, mkDateTime 2019 9 1 10 32 20, 3600⟩)
        DATE_TIME_FORMAT)) := by
  decide

/-- C2 (amended): for the integer-range grammar, `start >= end` fails with
the invalid-range error (`5..5` and `5..3` both fail; `3..5` expands to
exactly `[3, 4]`); the two date grammars perform no such check. -/
theorem c2_invalid_range :
    (∀ (s1 s2 : String) (so : Option String) (n1 n2 : Int),
      parseI32 s1 = .ok n1 → parseI32 s2 = .ok n2 → n1 ≥ n2 →
      parse_int_range s1 s2 so = .error (.General (("range start ") ++ toString n1 ++
        (" is greater/equal to range end ") ++ toString n2))) ∧
    parse_query_values ("5..5") =
      .value (.error (.General ("range start 5 is greater/equal to range end 5"))) ∧
    parse_query_values ("5..3") =
      .value (.error (.General ("range start 5 is greater/equal to range end 3"))) ∧
    parse_args 9 [("3..5")] = .value (some (.ok [[.intVal 3], [.intVal 4]])) := by
  refine ⟨?_, by decide, by decide, ?_⟩
  · intro s1 s2 so n1 n2 h1 h2 hge
    simp [parse_int_range, h1, h2, Bind.bind, Except.bind, hge]
  · have h1 : parse_query_values ("3..5") = .value (.ok (.IntRange 3 5 1)) := by decide
    have h2 : int_range_values 3 5 1 = [3, 4] := by
      rw [int_range_values_eq 1 (le_refl 1) 3 5]; decide
    simp [parse_args, parse_args_values, h1, to_cdrs_values, h2, multi_cartesian_product,
      Bind.bind, Except.map, pure]

/-- C2 (witness): the invalid-range branch at the concrete token `7..7`,
plus the concrete evaluations of the other conjuncts. -/
theorem c2_invalid_range_witness :
    parse_int_range ("7") ("7") none = .error (.General (("range start ") ++ toString (7 : Int) ++
      (" is greater/equal to range end ") ++ toString (7 : Int))) :=
  c2_invalid_range.1 ("7") ("7") none 7 7 (by decide) (by decide) (by decide)

/-- C5: `FixedInterval::next` yields nothing once the cursor has reached
the end bound, and otherwise yields the cursor and advances it by the
step; consequently the interval from 2019-09-01T10:32:20 to
2019-10-15T10:32:20 with a 2-week step yields exactly the four timestamps
of the claim, in order. -/
theorem c5_fixed_interval :
    (∀ s : FixedInterval,
      (s.start ≥ s.stop → s.next = (none, s)) ∧
      (s.start < s.stop → s.next = (some s.start, ⟨s.start + s.step, s.stop, s.step⟩))) ∧
    (parse_date_time_strs ("2019-09-01T10:32:20") ("2019-10-15T10:32:20") ("2") ("w")).map
      (fun r => r.collect 10) =
      .ok (.value (some [mkDateTime 2019 9 1 10 32 20, mkDateTime 2019 9 15 10 32 20,
        mkDateTime 2019 9 29 10 32 20, mkDateTime 2019 10 13 10 32 20])) := by
  refine ⟨fun s => ⟨fun h => ?_, fun h => ?_⟩, by decide⟩
  · simp [FixedInterval.next, h]
  · simp [FixedInterval.next, not_le.mpr h]

/-- C5 (witness): the two branches of `FixedInterval::next` at concrete
intervals, and the concrete 2-week example. -/
theorem c5_fixed_interval_witness :
    FixedInterval.next ⟨5, 3, 10⟩ = (none, ⟨5, 3, 10⟩) ∧
    FixedInterval.next ⟨0, 9, 4⟩ = (some 0, ⟨4, 9, 4⟩) :=
  ⟨(c5_fixed_interval.1 ⟨5, 3, 10⟩).1 (by decide),
   (c5_fixed_interval.1 ⟨0, 9, 4⟩).2 (by decide)⟩

/-- C6 (counterexample): overflowing the representable year range does
not empty the cursor.  The token
`2019-09-02T10:32:20..2020-02-03T09:00:10/3121492m` parses successfully,
and the very first `next` call of the resulting monthly iterator panics
inside `last_day_of_month` (the `NaiveDate::from_ymd` fallback), because
the target year 262144 exceeds chrono's representable range — iteration
aborts instead of reporting exhaustion. -/
theorem c6_overflow_panics_cex :
    parse_query_values ("2019-09-02T10:32:20..2020-02-03T09:00:10/3121492m") =
      .value (.ok (.DTRange
        (.MonthlyStep ⟨some ⟨2019, 9, 2⟩, 37940, mkDateTime 2020 2 3 9 0 10, 3121492⟩)
        DATE_TIME_FORMAT)) ∧
    (DateTimeRange.MonthlyStep
        ⟨some ⟨2019, 9, 2⟩, 37940, mkDateTime 2020 2 3 9 0 10, 3121492⟩).collect 5 =
      .panic ("invalid or out-of-range date") := by
  exact ⟨by decide, by decide⟩

/-- C6 (amended): `MonthlyInterval::next` yields nothing once the cursor
date is empty or the cursor combined with the time of day has reached the
end bound; otherwise it yields the combined timestamp and replaces the
cursor date by `add_months_naive_date`, which carries month overflow into
the year and clamps the day of month (concrete clamp and carry instances
included); the monthly interval of the claim yields exactly 6 timestamps
ending 2020-02-02T10:32:20. -/
theorem c6_monthly_interval :
    (∀ s : MonthlyInterval, s.current_date = none → s.next = .value (none, s)) ∧
    (∀ (s : MonthlyInterval) (d : Date), s.current_date = some d →
      DateTime.combine d s.time_of_day ≥ s.stop → s.next = .value (none, s)) ∧
    (∀ (s : MonthlyInterval) (d : Date), s.current_date = some d →
      DateTime.combine d s.time_of_day < s.stop →
      s.next = (add_months_naive_date d s.months).map
        (fun nd => (some (DateTime.combine d s.time_of_day), { s with current_date := nd }))) ∧
    add_months_naive_date ⟨2019, 1, 31⟩ 1 = .value (some ⟨2019, 2, 28⟩) ∧
    add_months_naive_date ⟨2020, 1, 31⟩ 1 = .value (some ⟨2020, 2, 29⟩) ∧
    add_months_naive_date ⟨2019, 10, 31⟩ 1 = .value (some ⟨2019, 11, 30⟩) ∧
    add_months_naive_date ⟨2019, 11, 2⟩ 3 = .value (some ⟨2020, 2, 2⟩) ∧
    (parse_date_time_strs ("2019-09-02T10:32:20") ("2020-02-03T09:00:10") ("1") ("m")).map
      (fun r => r.collect 10) =
      .ok (.value (some [mkDateTime 2019 9 2 10 32 20, mkDateTime 2019 10 2 10 32 20,
        mkDateTime 2019 11 2 10 32 20, mkDateTime 2019 12 2 10 32 20,
        mkDateTime 2020 1 2 10 32 20, mkDateTime 2020 2 2 10 32 20])) := by
  refine ⟨fun s h => ?_, fun s d h hge => ?_, fun s d h hlt => ?_,
    by decide, by decide, by decide, by decide, by decide⟩
  · simp [MonthlyInterval.next, h, panicOr_pure_eq]
  · simp [MonthlyInterval.next, h, hge, panicOr_pure_eq]
  · simp only [MonthlyInterval.next, h]
    rw [if_neg (not_le.mpr hlt)]
    cases hadd : add_months_naive_date d s.months with
    | panic m => simp [PanicOr.map, hadd, panicOr_bind_panic]
    | value nd => simp [Bind.bind, PanicOr.map, hadd, panicOr_bind_value, panicOr_pure_eq]

/-- C6 (witness): the yield-and-advance branch of `MonthlyInterval::next`
at a concrete state (cursor 2019-01-31, clamping to 2019-02-28). -/
theorem c6_monthly_interval_witness :
    MonthlyInterval.next ⟨some ⟨2019, 1, 31⟩, 0, mkDateTime 2020 1 1 0 0 0, 1⟩ =
      (add_months_naive_date ⟨2019, 1, 31⟩ 1).map
        (fun nd => (some (DateTime.combine ⟨2019, 1, 31⟩ 0),
          ⟨nd, 0, mkDateTime 2020 1 1 0 0 0, 1⟩)) :=
  c6_monthly_interval.2.2.1 ⟨some ⟨2019, 1, 31⟩, 0, mkDateTime 2020 1 1 0 0 0, 1⟩
    ⟨2019, 1, 31⟩ rfl (by decide)

/-- C1 (counterexample): the unit code `m` does not select a minutes step.
The date-time range token `2019-09-02T10:32:20..2020-02-03T09:00:10/1m`
parses successfully, and the constructed `DateTimeRange` steps by one
calendar month: its first two timestamps are Sep 2 and Oct 2, and the
second is not one minute after the first (a 1-minute step would give
`2019-09-02T10:33:20`). -/
theorem c1_unit_m_is_months_cex :
    (parse_date_time_strs ("2019-09-02T10:32:20") ("2020-02-03T09:00:10") ("1") ("m")).map
      (fun r => r.collect 10) =
      .ok (.value (some [mkDateTime 2019 9 2 10 32 20, mkDateTime 2019 10 2 10 32 20,
        mkDateTime 2019 11 2 10 32 20, mkDateTime 2019 12 2 10 32 20,
        mkDateTime 2020 1 2 10 32 20, mkDateTime 2020 2 2 10 32 20])) ∧
    mkDateTime 2019 10 2 10 32 20 ≠ mkDateTime 2019 9 2 10 32 20 + 60 := by
  constructor
  · decide
  · decide

/-- C1 (amended): in the date-time range grammar, `m` selects a
calendar-months step and `M` a minutes step, while `d` selects days, `w`
weeks, `H` hours and `S` seconds: for every successfully parsed step count
and unit, the constructed `DateTimeRange` is the monthly iterator for `m`
and the fixed-duration iterator with the named duration otherwise. -/
theorem c1_date_time_unit_mapping (start stop : DateTime) (stepStr unit : String)
    (n : Nat) (r : DateTimeRange)
    (hstep : parseU32 stepStr = .ok n)
    (hr : new_date_time_range start stop stepStr unit = .ok r) :
    (unit = ("m") → r = .MonthlyStep ⟨some start.dateOf, start.timeOf, stop, n⟩) ∧
    (unit = ("M") → r = .FixedStep ⟨start, stop, (n : Int) * 60⟩) ∧
    (unit = ("S") → r = .FixedStep ⟨start, stop, (n : Int)⟩) ∧
    (unit = ("H") → r = .FixedStep ⟨start, stop, (n : Int) * 3600⟩) ∧
    (unit = ("d") → r = .FixedStep ⟨start, stop, (n : Int) * 86400⟩) ∧
    (unit = ("w") → r = .FixedStep ⟨start, stop, (n : Int) * 604800⟩) := by
  simp only [new_date_time_range, hstep, Except.bind] at hr
  refine ⟨fun hu => ?_, fun hu => ?_, fun hu => ?_, fun hu => ?_, fun hu => ?_, fun hu => ?_⟩ <;>
    subst hu <;> simp only [reduceIte, Nat.cast_mul] at hr <;>
    (injection hr with h; exact h.symm)

/-- C1 (witness): the mapping theorem applied to the concrete unit `M`,
which yields a 300-second (5-minute) fixed step. -/
theorem c1_date_time_unit_mapping_witness :
    (0 : DateTime) = 0 ∧ .FixedStep ⟨0, 100, 300⟩ =
      DateTimeRange.FixedStep ⟨0, 100, (5 : Nat) * 60⟩ := by
  refine ⟨rfl, ?_⟩
  have h := (c1_date_time_unit_mapping 0 100 ("5") ("M") 5 (.FixedStep ⟨0, 100, 300⟩)
    (by decide) (by decide)).2.1 rfl
  exact h

/-- C3 (code bug): the token `1..10/0` parses successfully into an
`IntRange` whose step is 0 — violating the claimed `step >= 1` invariant —
and its expansion panics (`step_by(0)`) instead of returning `Ok`. -/
theorem c3_step_zero_panic :
    parse_query_values ("1..10/0") = .value (.ok (.IntRange 1 10 0)) ∧
    (∀ fuel, to_cdrs_values fuel (.IntRange 1 10 0) =
      .panic ("Iterator::step_by called with a step of zero")) ∧
    (∀ fuel, parse_args fuel [("1..10/0")] =
      .panic ("Iterator::step_by called with a step of zero")) := by
  refine ⟨by decide, fun fuel => by simp [to_cdrs_values], fun fuel => ?_⟩
  have h1 : parse_query_values ("1..10/0") = .value (.ok (.IntRange 1 10 0)) := by decide
  simp [parse_args, parse_args_values, h1, to_cdrs_values, Bind.bind]

/-- C9 (code bug, evaluated at the failing input): `row_to_json` of
`json.rs` renders a `Blob` column holding the non-null payload
`0x010203` as JSON `null` — exactly the output produced when the column
is genuinely null — rather than an explicit sentinel or a named error. -/
theorem c9_unsupported_rendered_null :
    json_row_to_json [(("payload"), .Blob)] (fun _ => some (.cellBlob [1, 2, 3])) =
      .value (.ok [(("payload"), .null)]) ∧
    json_row_to_json [(("payload"), .Blob)] (fun _ => none) =
      .value (.ok [(("payload"), .null)]) := by
  exact ⟨rfl, rfl⟩

/-- C4: a valid integer range `FROM..TO/STEP` (`FROM < TO`, `STEP >= 1`)
expands to exactly `ceil((TO - FROM) / STEP)` integers, the `i`-th being
`FROM + i * STEP`, strictly increasing and all strictly below `TO`. -/
theorem c4_int_range_expansion (lo hi : Int) (step fuel : Nat)
    (h1 : lo < hi) (h2 : 1 ≤ step) :
    ∃ l : List Int,
      to_cdrs_values fuel (.IntRange lo hi step) = .value (some (l.map .intVal)) ∧
      l.length = ((hi - lo).toNat + step - 1) / step ∧
      (∀ (i : Nat) (hil : i < l.length), l.get ⟨i, hil⟩ = lo + Int.ofNat i * step) ∧
      l.Pairwise (· < ·) ∧
      (∀ v ∈ l, v < hi) := by
  have hstep0 : (0 : Int) < (step : Int) := by exact_mod_cast h2
  have hkey : ∀ i : Nat, i < ((hi - lo).toNat + step - 1) / step →
      lo + Int.ofNat i * step < hi := by
    intro i hik
    have h3 : (i + 1) * step ≤ (((hi - lo).toNat + step - 1) / step) * step :=
      Nat.mul_le_mul_right step hik
    have h4 : (((hi - lo).toNat + step - 1) / step) * step ≤ (hi - lo).toNat + step - 1 :=
      Nat.div_mul_le_self _ _
    have h5 : i * step + step = (i + 1) * step := by ring
    have h6 : i * step < (hi - lo).toNat := by omega
    have h7 : ((i * step : Nat) : Int) < ((hi - lo).toNat : Int) := by exact_mod_cast h6
    have h8 : (((hi - lo).toNat : Int)) = hi - lo := by omega
    have h9 : (Int.ofNat i) * step = ((i * step : Nat) : Int) := by
      simp only [Int.ofNat_eq_coe]; push_cast; ring
    omega
  refine ⟨int_range_values lo hi step, ?_, ?_, ?_, ?_, ?_⟩
  · simp [to_cdrs_values, show ¬ step = 0 by omega]
  · rw [int_range_values_eq step h2]; simp
  · intro i hil
    rw [List.get_of_eq (int_range_values_eq step h2 lo hi) ⟨i, hil⟩]
    simp [List.get_eq_getElem, List.getElem_map, List.getElem_range]
  · rw [int_range_values_eq step h2]
    refine (List.pairwise_map).mpr (List.Pairwise.imp ?_ (List.pairwise_lt_range _))
    intro a b hab
    exact add_lt_add_left
      (mul_lt_mul_of_pos_right (Int.ofNat_lt.mpr hab) hstep0) lo
  · intro v hv
    rw [int_range_values_eq step h2] at hv
    simp only [List.mem_map, List.mem_range] at hv
    obtain ⟨i, hik, rfl⟩ := hv
    exact hkey i hik

/-- C4 (witness): the expansion facts at the concrete range `3..10/2`. -/
theorem c4_int_range_expansion_witness :
    ∃ l : List Int,
      to_cdrs_values 5 (.IntRange 3 10 2) = .value (some (l.map .intVal)) ∧
      l.length = ((10 - 3 : Int).toNat + 2 - 1) / 2 ∧
      (∀ (i : Nat) (hil : i < l.length), l.get ⟨i, hil⟩ = 3 + Int.ofNat i * 2) ∧
      l.Pairwise (· < ·) ∧
      (∀ v ∈ l, v < 10) :=
  c4_int_range_expansion 3 10 2 5 (by decide) (by decide)

/-- C7: parameter expansion is the cartesian product in parameter order
with the rightmost parameter varying fastest: `1..3` and `a,b` expand to
exactly `[(1,a), (1,b), (2,a), (2,b)]` in that order, and in general every
tuple of the product has one component per parameter, the `i`-th drawn
from the `i`-th parameter's value sequence. -/
theorem c7_cartesian_product :
    parse_args 9 [("1..3"), ("a,b")] = .value (some (.ok
      [[.intVal 1, .strVal ("a")], [.intVal 1, .strVal ("b")],
       [.intVal 2, .strVal ("a")], [.intVal 2, .strVal ("b")]])) ∧
    (∀ {α : Type} (xss : List (List α)) (t : List α), t ∈ multi_cartesian_product xss →
      t.length = xss.length ∧
      ∀ (i : Nat) (hi1 : i < t.length) (hi2 : i < xss.length),
        t.get ⟨i, hi1⟩ ∈ xss.get ⟨i, hi2⟩) := by
  constructor
  · have hp1 : parse_query_values ("1..3") = .value (.ok (.IntRange 1 3 1)) := by decide
    have hp2 : parse_query_values ("a,b") = .value (.ok (.Strings [("a"), ("b")])) := by decide
    have hr : int_range_values 1 3 1 = [1, 2] := by
      rw [int_range_values_eq 1 (le_refl 1) 1 3]; decide
    simp [parse_args, parse_args_values, hp1, hp2, to_cdrs_values, hr,
      multi_cartesian_product, Bind.bind, Except.map, pure]
  · intro α xss
    induction xss with
    | nil => intro t ht; simp [multi_cartesian_product] at ht
    | cons xs rest IH =>
      intro t ht
      cases rest with
      | nil =>
        simp only [multi_cartesian_product, List.mem_map] at ht
        obtain ⟨x, hx, rfl⟩ := ht
        refine ⟨rfl, ?_⟩
        intro i hi1 hi2
        have hz : i = 0 := by simpa using Nat.lt_one_iff.mp (by simpa using hi1)
        subst hz
        simpa using hx
      | cons y ys =>
        simp only [multi_cartesian_product, List.mem_flatMap, List.mem_map] at ht
        obtain ⟨x, hx, t', ht', rfl⟩ := ht
        obtain ⟨hlen, hmem⟩ := IH t' ht'
        refine ⟨by simp [hlen], ?_⟩
        intro i hi1 hi2
        cases i with
        | zero => simpa using hx
        | succ j =>
          simp only [List.get_cons_succ]
          exact hmem j (by simpa using hi1) (by simpa using hi2)

/-- C7 (witness): the tuple-shape facts applied to a concrete member of a
concrete product. -/
theorem c7_cartesian_product_witness :
    [1, 5].length = [[1, 2], [5, 6]].length ∧
    ∀ (i : Nat) (hi1 : i < [1, 5].length) (hi2 : i < [[1, 2], [5, 6]].length),
      [1, 5].get ⟨i, hi1⟩ ∈ [[1, 2], [5, 6]].get ⟨i, hi2⟩ :=
  c7_cartesian_product.2 [[1, 2], [5, 6]] [1, 5]
    (by simp [multi_cartesian_product])

/-- C10: `into_map_key` succeeds exactly on the primitive-like variants
(`String`, `Int`, `Boolean`, `Double`, `Date`, `Time`, `Timestamp`,
`Inet`, `Uuid`, `Blob`) and fails on `Null`, `Seq` and `Map` (and
`Decimal`, also caught by the wildcard arm); `to_map` coerces every
decoded key with it, so a map decode succeeds only if every entry's key
decodes and coerces, and any entry whose key decodes to a non-coercible
variant makes the whole map decode fail. -/
theorem c10_map_key_coercion :
    (∀ v : ColValue, (v.into_map_key).isOk =
      (match v with
       | .Null => false
       | .Seq _ => false
       | .Map _ => false
       | .Decimal _ _ => false
       | _ => true)) ∧
    (∀ (km vm : ColTypeOption) (data : List (CBytes × CBytes)),
      (to_map (some (.CMap km vm)) data).isOk = true →
      ∀ p ∈ data, ∃ (kv : ColValue) (key : String),
        ColValue.decode km p.1 = .ok kv ∧ kv.into_map_key = .ok key) ∧
    (∀ (km vm : ColTypeOption) (data : List (CBytes × CBytes)) (p : CBytes × CBytes),
      p ∈ data → (ColValue.decode km p.1 >>= ColValue.into_map_key).isOk = false →
      (to_map (some (.CMap km vm)) data).isOk = false) := by
  have hmap : ∀ (km vm : ColTypeOption) (data : List (CBytes × CBytes)),
      to_map (some (.CMap km vm)) data = decodeEntries km vm data := by
    intro km vm data
    simp [to_map]
  have hmain : ∀ (km vm : ColTypeOption) (data : List (CBytes × CBytes)),
      (decodeEntries km vm data).isOk = true →
      ∀ p ∈ data, ∃ (kv : ColValue) (key : String),
        ColValue.decode km p.1 = .ok kv ∧ kv.into_map_key = .ok key := by
    intro km vm data
    induction data with
    | nil => intro _ p hp; simp at hp
    | cons hd tl IH =>
      obtain ⟨k, v⟩ := hd
      intro hok p hp
      cases hdec : ColValue.decode km k with
      | error e => simp [decodeEntries, hdec, Bind.bind, Except.bind, Except.isOk, Except.toBool] at hok
      | ok kv =>
        cases hkey : kv.into_map_key with
        | error e => simp [decodeEntries, hdec, hkey, Bind.bind, Except.bind, Except.isOk, Except.toBool] at hok
        | ok key =>
          cases hv : ColValue.decode vm v with
          | error e => simp [decodeEntries, hdec, hkey, hv, Bind.bind, Except.bind, Except.isOk, Except.toBool] at hok
          | ok val =>
            rcases List.mem_cons.mp hp with hph | hpt
            · subst hph
              exact ⟨kv, key, hdec, hkey⟩
            · apply IH ?_ p hpt
              cases htl : decodeEntries km vm tl with
              | error e =>
                simp [decodeEntries, hdec, hkey, hv, htl, Bind.bind, Except.bind, Except.isOk, Except.toBool] at hok
              | ok rest => rfl
  refine ⟨fun v => by cases v <;> rfl, ?_, ?_⟩
  · intro km vm data hok
    exact hmain km vm data (by rw [← hmap km vm data]; exact hok)
  · intro km vm data p hp hbad
    cases hok : (to_map (some (.CMap km vm)) data).isOk with
    | false => rfl
    | true =>
      obtain ⟨kv, key, hdec, hkey⟩ :=
        hmain km vm data (by rw [← hmap km vm data]; exact hok) p hp
      rw [hdec] at hbad
      simp [Bind.bind, Except.bind, hkey, Except.isOk, Except.toBool] at hbad

/-- C10 (witness): a concrete map whose single entry carries a null key —
the key decodes to the non-coercible `Null` variant and the whole map
decode fails. -/
theorem c10_map_key_coercion_witness :
    (to_map (some (.CMap (.mk .Int none) (.mk .Int none)))
      [((none : CBytes), (some [0, 0, 0, 5] : CBytes))]).isOk = false := by
  apply c10_map_key_coercion.2.2 (.mk .Int none) (.mk .Int none) _ _ (List.mem_singleton.mpr rfl)
  have hdec : ColValue.decode (.mk .Int none) (none : CBytes) = .ok .Null := by
    simp [ColValue.decode]
  rw [hdec]
  rfl

/-- A scheduler step either leaves everything unchanged (index out of
range) or acts on exactly one worker of the list. -/
theorem stepAt_cases {α ε : Type} (f : α → Except ε Unit) :
    ∀ (ws : List (WorkerState ε)) (i : Nat) (q : List α) (er : Option ε),
      stepAt f ws i q er = (ws, q, er) ∨
      ∃ w1 w w2, ws = w1 ++ w :: w2 ∧ i = w1.length ∧
        stepAt f ws i q er =
          (w1 ++ (stepWorker f q er w).1 :: w2,
           (stepWorker f q er w).2.1, (stepWorker f q er w).2.2) := by
  intro ws
  induction ws with
  | nil => intro i q er; left; simp [stepAt]
  | cons w rest IH =>
    intro i q er
    cases i with
    | zero =>
      right
      refine ⟨[], w, rest, rfl, rfl, ?_⟩
      rcases hsw : stepWorker f q er w with ⟨w', q', er'⟩
      simp [stepAt, hsw]
    | succ j =>
      rcases IH j q er with h | ⟨w1, w0, w2, hsplit, hlen, heq⟩
      · left
        simp [stepAt, h]
      · right
        refine ⟨w :: w1, w0, w2, by rw [hsplit]; rfl, by simp [hlen], ?_⟩
        simp [stepAt, heq]

/-- `step` in terms of `stepAt`'s projections. -/
theorem step_eq {α ε : Type} (f : α → Except ε Unit) (s : ConsumerState α ε) (i : Nat) :
    step f s i = ⟨(stepAt f s.workers i s.queue s.err).2.1,
                  (stepAt f s.workers i s.queue s.err).1,
                  (stepAt f s.workers i s.queue s.err).2.2⟩ := by
  rcases h : stepAt f s.workers i s.queue s.err with ⟨ws, q, er⟩
  simp [step, h]

/-- `stepWorker` computation: a finished worker does nothing. -/
theorem stepWorker_done {α ε : Type} (f : α → Except ε Unit) (q : List α) (er : Option ε) :
    stepWorker f q er .done = (.done, q, er) := rfl

/-- `stepWorker` computation: passing the error check with `Ok`. -/
theorem stepWorker_check_ok_none {α ε : Type} (f : α → Except ε Unit) (q : List α) :
    stepWorker f q none (.check (.ok ())) = (.claim, q, none) := rfl

/-- `stepWorker` computation: passing the error check with `Err`. -/
theorem stepWorker_check_err_none {α ε : Type} (f : α → Except ε Unit) (q : List α) (e : ε) :
    stepWorker f q none (.check (.error e)) = (.failing e, q, none) := rfl

/-- `stepWorker` computation: the error check fails, worker stops. -/
theorem stepWorker_check_some {α ε : Type} (f : α → Except ε Unit) (q : List α)
    (e0 : ε) (r : Except ε Unit) :
    stepWorker f q (some e0) (.check r) = (.done, q, some e0) := rfl

/-- `stepWorker` computation: recording the error (an overwrite). -/
theorem stepWorker_failing {α ε : Type} (f : α → Except ε Unit) (q : List α)
    (er : Option ε) (e : ε) :
    stepWorker f q er (.failing e) = (.done, q, some e) := rfl

/-- `stepWorker` computation: claiming from an exhausted queue. -/
theorem stepWorker_claim_nil {α ε : Type} (f : α → Except ε Unit) (er : Option ε) :
    stepWorker f [] er .claim = (.done, [], er) := rfl

/-- `stepWorker` computation: claiming the next item and running the
action on it. -/
theorem stepWorker_claim_cons {α ε : Type} (f : α → Except ε Unit) (er : Option ε)
    (y : α) (q' : List α) :
    stepWorker f (y :: q') er .claim = (.check (f y), q', er) := rfl

/-- An active worker is good. -/
theorem activeW_goodW {ε : Type} {w : WorkerState ε} (h : activeW w) : goodW w := by
  cases w with
  | check r => exact h
  | claim => trivial
  | done => trivial
  | failing e => exact h.elim

/-- One scheduler step preserves the all-successful invariant. -/
theorem invOk_step {α ε : Type} (f : α → Except ε Unit) (s : ConsumerState α ε) (i : Nat)
    (h : InvOk f s) : InvOk f (step f s i) := by
  obtain ⟨herr, hq, hw⟩ := h
  rcases stepAt_cases f s.workers i s.queue s.err with heq | ⟨w1, w, w2, hsplit, _, heq⟩
  · rw [step_eq, heq]
    exact ⟨herr, hq, hw⟩
  · have hwmem : w ∈ s.workers := by
      rw [hsplit]; exact List.mem_append_right _ (List.mem_cons_self _ _)
    have hmem1 : ∀ w' ∈ w1, w' ∈ s.workers := by
      intro w' h1; rw [hsplit]; exact List.mem_append_left _ h1
    have hmem2 : ∀ w' ∈ w2, w' ∈ s.workers := by
      intro w' h2; rw [hsplit]
      exact List.mem_append_right _ (List.mem_cons_of_mem _ h2)
    have hwgood : goodW w := hw w hwmem
    rw [step_eq, heq]
    cases w with
    | failing e' => exact absurd hwgood (by simp [goodW])
    | done =>
      rw [stepWorker_done]
      refine ⟨herr, hq, ?_⟩
      intro w' hw'
      rcases List.mem_append.mp hw' with h1 | h2
      · exact hw w' (hmem1 w' h1)
      · rcases List.mem_cons.mp h2 with rfl | h2'
        · trivial
        · exact hw w' (hmem2 w' h2')
    | check r =>
      have hr : r = .ok () := hwgood
      subst hr
      rw [herr, stepWorker_check_ok_none]
      refine ⟨rfl, by rw [← herr]; exact hq, ?_⟩
      intro w' hw'
      rcases List.mem_append.mp hw' with h1 | h2
      · exact hw w' (hmem1 w' h1)
      · rcases List.mem_cons.mp h2 with rfl | h2'
        · trivial
        · exact hw w' (hmem2 w' h2')
    | claim =>
      cases hqe : s.queue with
      | nil =>
        rw [stepWorker_claim_nil]
        refine ⟨herr, by simp, ?_⟩
        intro w' hw'
        rcases List.mem_append.mp hw' with h1 | h2
        · exact hw w' (hmem1 w' h1)
        · rcases List.mem_cons.mp h2 with rfl | h2'
          · trivial
          · exact hw w' (hmem2 w' h2')
      | cons y q' =>
        rw [stepWorker_claim_cons]
        have hy : f y = .ok () := hq y (by rw [hqe]; exact List.mem_cons_self _ _)
        refine ⟨herr, fun z hz => hq z (by rw [hqe]; exact List.mem_cons_of_mem _ hz), ?_⟩
        intro w' hw'
        rcases List.mem_append.mp hw' with h1 | h2
        · exact hw w' (hmem1 w' h1)
        · rcases List.mem_cons.mp h2 with rfl | h2'
          · exact hy
          · exact hw w' (hmem2 w' h2')

/-- One scheduler step preserves the single-failure invariant (the three
phases: failing item still queued, failure held by a worker, failure
recorded). -/
theorem invFail_step {α ε : Type} (f : α → Except ε Unit) (x : α) (e : ε)
    (hx : f x = .error e) (s : ConsumerState α ε) (i : Nat)
    (h : InvA f x s ∨ InvB f e s ∨ InvC f e s) :
    InvA f x (step f s i) ∨ InvB f e (step f s i) ∨ InvC f e (step f s i) := by
  rcases stepAt_cases f s.workers i s.queue s.err with heq | ⟨w1, w, w2, hsplit, _, heq⟩
  · rw [step_eq, heq]
    exact h
  · have hwmem : w ∈ s.workers := by
      rw [hsplit]; exact List.mem_append_right _ (List.mem_cons_self _ _)
    have hmem1 : ∀ w' ∈ w1, w' ∈ s.workers := by
      intro w' h1; rw [hsplit]; exact List.mem_append_left _ h1
    have hmem2 : ∀ w' ∈ w2, w' ∈ s.workers := by
      intro w' h2; rw [hsplit]
      exact List.mem_append_right _ (List.mem_cons_of_mem _ h2)
    have hside : ∀ (P : WorkerState ε → Prop) (w' : WorkerState ε),
        (∀ u ∈ s.workers, P u) → P w' →
        ∀ u ∈ w1 ++ w' :: w2, P u := by
      intro P w' hall hw' u hu
      rcases List.mem_append.mp hu with h1 | h2
      · exact hall u (hmem1 u h1)
      · rcases List.mem_cons.mp h2 with rfl | h2'
        · exact hw'
        · exact hall u (hmem2 u h2')
    rw [step_eq, heq]
    rcases h with ⟨herr, ⟨q1, q2, hqeq, hqok⟩, hact, _⟩ |
      ⟨herr, hqok, ⟨wb, hwbmem, hwbbad⟩, hgb⟩ | ⟨herr, hqok, hgb⟩
    -- Phase A: the failing item x is still in the queue.
    · have hwact : activeW w := hact w hwmem
      cases w with
      | done => exact absurd hwact (by simp [activeW])
      | failing e' => exact absurd hwact (by simp [activeW])
      | check r =>
        have hr : r = .ok () := hwact
        subst hr
        rw [herr, stepWorker_check_ok_none]
        left
        exact ⟨rfl, ⟨q1, q2, hqeq, hqok⟩,
          hside activeW .claim hact trivial, by simp⟩
      | claim =>
        cases q1 with
        | nil =>
          simp only [List.nil_append] at hqeq
          rw [hqeq, stepWorker_claim_cons]
          right; left
          refine ⟨herr, ?_, ?_, ?_⟩
          · intro y hy
            exact hqok y (by simpa using hy)
          · exact ⟨.check (f x), List.mem_append_right _ (List.mem_cons_self _ _),
              by simp [badW, hx]⟩
          · exact hside (fun u => goodW u ∨ badW e u) (.check (f x))
              (fun u hu => Or.inl (activeW_goodW (hact u hu)))
              (Or.inr (by simp [badW, hx]))
        | cons y q1' =>
          simp only [List.cons_append] at hqeq
          rw [hqeq, stepWorker_claim_cons]
          left
          have hy : f y = .ok () := hqok y (by simp)
          refine ⟨herr, ⟨q1', q2, rfl, ?_⟩, ?_, by simp⟩
          · intro z hz
            exact hqok z (by simpa using Or.inr hz)
          · exact hside activeW (.check (f y)) hact (by simp [activeW, hy])
    -- Phase B: some worker holds the failure e.
    · have hclass : goodW w ∨ badW e w := hgb w hwmem
      have hkeep : ∀ (w' : WorkerState ε), (goodW w' ∨ badW e w') → wb ≠ w →
          ∃ u ∈ w1 ++ w' :: w2, badW e u := by
        intro w' _ hne
        have : wb ∈ w1 ++ w2 := by
          rw [hsplit] at hwbmem
          rcases List.mem_append.mp hwbmem with h1 | h2
          · exact List.mem_append_left _ h1
          · rcases List.mem_cons.mp h2 with rfl | h2'
            · exact absurd rfl hne
            · exact List.mem_append_right _ h2'
        rcases List.mem_append.mp this with h1 | h2
        · exact ⟨wb, List.mem_append_left _ h1, hwbbad⟩
        · exact ⟨wb, List.mem_append_right _ (List.mem_cons_of_mem _ h2), hwbbad⟩
      cases w with
      | done =>
        rw [stepWorker_done]
        right; left
        refine ⟨herr, hqok, ?_, hside _ .done hgb (Or.inl trivial)⟩
        exact hkeep .done (Or.inl trivial) (by intro hh; rw [hh] at hwbbad; exact hwbbad)
      | check r =>
        rcases hclass with hgood | hbad
        · have hr : r = .ok () := hgood
          subst hr
          rw [herr, stepWorker_check_ok_none]
          right; left
          refine ⟨rfl, by rw [← herr]; exact hqok, ?_, hside _ .claim hgb (Or.inl trivial)⟩
          exact hkeep .claim (Or.inl trivial)
            (by intro hh; rw [hh] at hwbbad; simp [badW] at hwbbad)
        · have hr : r = .error e := hbad
          subst hr
          rw [herr, stepWorker_check_err_none]
          right; left
          refine ⟨rfl, by rw [← herr]; exact hqok, ?_, ?_⟩
          · exact ⟨.failing e, List.mem_append_right _ (List.mem_cons_self _ _),
              by simp [badW]⟩
          · exact hside _ (.failing e) hgb (Or.inr (by simp [badW]))
      | claim =>
        cases hqe : s.queue with
        | nil =>
          rw [stepWorker_claim_nil]
          right; left
          refine ⟨herr, by simp, ?_, hside _ .done hgb (Or.inl trivial)⟩
          exact hkeep .done (Or.inl trivial) (by intro hh; rw [hh] at hwbbad; exact hwbbad)
        | cons y q' =>
          rw [stepWorker_claim_cons]
          have hy : f y = .ok () := hqok y (by rw [hqe]; exact List.mem_cons_self _ _)
          right; left
          refine ⟨herr, fun z hz => hqok z (by rw [hqe]; exact List.mem_cons_of_mem _ hz),
            ?_, hside _ (.check (f y)) hgb (Or.inl (by simp [goodW, hy]))⟩
          exact hkeep (.check (f y)) (Or.inl (by simp [goodW, hy]))
            (by intro hh; rw [hh] at hwbbad; simp [badW, hy] at hwbbad)
      | failing e' =>
        have he' : e' = e := by
          rcases hclass with hgood | hbad
          · exact absurd hgood (by simp [goodW])
          · exact hbad
        subst he'
        rw [stepWorker_failing]
        right; right
        exact ⟨rfl, hqok, hside _ .done hgb (Or.inl trivial)⟩
    -- Phase C: the error cell already holds e.
    · have hclass : goodW w ∨ badW e w := hgb w hwmem
      cases w with
      | done =>
        rw [stepWorker_done]
        right; right
        exact ⟨herr, hqok, hside _ .done hgb (Or.inl trivial)⟩
      | check r =>
        rw [herr, stepWorker_check_some]
        right; right
        exact ⟨rfl, by rw [← herr]; exact hqok, hside _ .done hgb (Or.inl trivial)⟩
      | claim =>
        cases hqe : s.queue with
        | nil =>
          rw [stepWorker_claim_nil]
          right; right
          exact ⟨herr, by simp, hside _ .done hgb (Or.inl trivial)⟩
        | cons y q' =>
          rw [stepWorker_claim_cons]
          have hy : f y = .ok () := hqok y (by rw [hqe]; exact List.mem_cons_self _ _)
          right; right
          exact ⟨herr, fun z hz => hqok z (by rw [hqe]; exact List.mem_cons_of_mem _ hz),
            hside _ (.check (f y)) hgb (Or.inl (by simp [goodW, hy]))⟩
      | failing e' =>
        have he' : e' = e := by
          rcases hclass with hgood | hbad
          · exact absurd hgood (by simp [goodW])
          · exact hbad
        subst he'
        rw [stepWorker_failing]
        right; right
        exact ⟨rfl, hqok, hside _ .done hgb (Or.inl trivial)⟩

/-- The all-successful invariant holds right after spawning. -/
theorem invOk_init {α ε : Type} (f : α → Except ε Unit) (xs : List α) (n : Nat)
    (hok : ∀ x ∈ xs, f x = .ok ()) : InvOk f (initState f xs n) := by
  refine ⟨rfl, fun y hy => hok y (List.drop_subset _ _ hy), ?_⟩
  intro w hw
  simp only [initState, List.mem_map] at hw
  obtain ⟨y, hy, rfl⟩ := hw
  simp [goodW, hok y (List.take_subset _ _ hy)]

/-- The single-failure invariant holds right after spawning: the failing
item is either pre-assigned to a worker (phase B) or still queued
(phase A). -/
theorem invFail_init {α ε : Type} (f : α → Except ε Unit) (n : Nat)
    (ys : List α) (x : α) (zs : List α) (e : ε)
    (hx : f x = .error e) (hys : ∀ y ∈ ys, f y = .ok ())
    (hzs : ∀ z ∈ zs, f z = .ok ()) (hn : 1 ≤ n) :
    InvA f x (initState f (ys ++ x :: zs) n) ∨ InvB f e (initState f (ys ++ x :: zs) n) ∨
      InvC f e (initState f (ys ++ x :: zs) n) := by
  by_cases hlt : ys.length < n
  · right; left
    have htake : (ys ++ x :: zs).take n = ys ++ x :: zs.take (n - ys.length - 1) := by
      rw [List.take_append_eq_append_take, List.take_of_length_le (by omega)]
      congr 1
      have hm : n - ys.length = (n - ys.length - 1) + 1 := by omega
      rw [hm, List.take_succ_cons]
      simp
    have hdrop : (ys ++ x :: zs).drop n = zs.drop (n - ys.length - 1) := by
      rw [List.drop_append_eq_append_drop, List.drop_of_length_le (by omega)]
      have hm : n - ys.length = (n - ys.length - 1) + 1 := by omega
      rw [hm, List.drop_succ_cons, List.nil_append]
      simp
    refine ⟨rfl, ?_, ?_, ?_⟩
    · intro y hy
      simp only [initState, hdrop] at hy
      exact hzs y (List.drop_subset _ _ hy)
    · refine ⟨.check (f x), ?_, by simp [badW, hx]⟩
      simp only [initState, htake, List.map_append, List.map_cons]
      exact List.mem_append_right _ (List.mem_cons_self _ _)
    · intro w hw
      simp only [initState, htake, List.mem_map] at hw
      obtain ⟨y, hy, rfl⟩ := hw
      rcases List.mem_append.mp hy with h1 | h2
      · exact Or.inl (by simp [goodW, hys y h1])
      · rcases List.mem_cons.mp h2 with rfl | h2'
        · exact Or.inr (by simp [badW, hx])
        · exact Or.inl (by simp [goodW, hzs y (List.take_subset _ _ h2')])
  · left
    have htake : (ys ++ x :: zs).take n = ys.take n := by
      rw [List.take_append_eq_append_take]
      have h0 : n - ys.length = 0 := by omega
      rw [h0]
      simp
    have hdrop : (ys ++ x :: zs).drop n = ys.drop n ++ x :: zs := by
      rw [List.drop_append_eq_append_drop]
      have h0 : n - ys.length = 0 := by omega
      rw [h0]
      simp
    refine ⟨rfl, ⟨ys.drop n, zs, by simp [initState, hdrop], ?_⟩, ?_, ?_⟩
    · intro y hy
      rcases List.mem_append.mp hy with h1 | h2
      · exact hys y (List.drop_subset _ _ h1)
      · exact hzs y h2
    · intro w hw
      simp only [initState, htake, List.mem_map] at hw
      obtain ⟨y, hy, rfl⟩ := hw
      simp [activeW, hys y (List.take_subset _ _ hy)]
    · simp only [initState, htake]
      have hlen : (ys.take n).length = n := by
        rw [List.length_take]
        omega
      intro hcon
      have hlen2 := congrArg List.length hcon
      simp only [List.length_map, List.length_nil, hlen] at hlen2
      omega

/-- Running any schedule preserves the all-successful invariant. -/
theorem invOk_exec {α ε : Type} (f : α → Except ε Unit) (choices : List Nat) :
    ∀ s : ConsumerState α ε, InvOk f s → InvOk f (exec f s choices) := by
  induction choices with
  | nil => intro s h; exact h
  | cons i rest IH => intro s h; exact IH _ (invOk_step f s i h)

/-- Running any schedule preserves the single-failure invariant. -/
theorem invFail_exec {α ε : Type} (f : α → Except ε Unit) (x : α) (e : ε)
    (hx : f x = .error e) (choices : List Nat) :
    ∀ s : ConsumerState α ε, (InvA f x s ∨ InvB f e s ∨ InvC f e s) →
      InvA f x (exec f s choices) ∨ InvB f e (exec f s choices) ∨
        InvC f e (exec f s choices) := by
  induction choices with
  | nil => intro s h; exact h
  | cons i rest IH => intro s h; exact IH _ (invFail_step f x e hx s i h)

/-- C8: under any schedule of any number `n >= 1` of workers, `consume`
returns `Ok(())` when the action succeeds on every input item, and when
exactly one item of the input fails, it returns that item's error — the
outcome depends only on the items, not on `n` or the interleaving. -/
theorem c8_consume_outcome {α ε : Type} (f : α → Except ε Unit) (xs : List α) (n : Nat)
    (choices : List Nat) (hn : 1 ≤ n)
    (hdone : allDone (exec f (initState f xs n) choices) = true) :
    ((∀ x ∈ xs, f x = .ok ()) →
      consumeResult (exec f (initState f xs n) choices) = .ok ()) ∧
    (∀ (ys : List α) (x : α) (zs : List α) (e : ε), xs = ys ++ x :: zs →
      f x = .error e → (∀ y ∈ ys, f y = .ok ()) → (∀ z ∈ zs, f z = .ok ()) →
      consumeResult (exec f (initState f xs n) choices) = .error e) := by
  constructor
  · intro hok
    have h := invOk_exec f choices _ (invOk_init f xs n hok)
    simp [consumeResult, h.1]
  · intro ys x zs e hxs hx hys hzs
    subst hxs
    have h := invFail_exec f x e hx choices _ (invFail_init f n ys x zs e hx hys hzs hn)
    rcases h with ⟨_, _, hact, hne⟩ | ⟨_, _, ⟨w, hw, hbad⟩, _⟩ | hC
    · exfalso
      obtain ⟨w, hw⟩ := List.exists_mem_of_ne_nil _ hne
      have hd := List.all_eq_true.mp hdone w hw
      have ha := hact w hw
      cases w with
      | check r => simp [WorkerState.isDone] at hd
      | claim => simp [WorkerState.isDone] at hd
      | failing e0 => simp [WorkerState.isDone] at hd
      | done => exact ha
    · exfalso
      have hd := List.all_eq_true.mp hdone w hw
      cases w with
      | check r => simp [WorkerState.isDone] at hd
      | claim => exact hbad
      | failing e0 => simp [WorkerState.isDone] at hd
      | done => exact hbad
    · simp [consumeResult, hC.1]

/-- C8 (witness): the outcome theorem applied to two concrete runs with 2
workers over `[1, 2, 3]` — an all-successful action, and an action failing
exactly on item 2 — under concrete terminating schedules. -/
theorem c8_consume_outcome_witness :
    consumeResult (exec (fun _ : Nat => (.ok () : Except String Unit))
      (initState (fun _ : Nat => (.ok () : Except String Unit)) [1, 2, 3] 2)
      [0, 1, 0, 1, 0, 0]) = .ok () ∧
    consumeResult (exec (fun x : Nat => if x = 2 then .error ("boom") else .ok ())
      (initState (fun x : Nat => if x = 2 then .error ("boom") else .ok ()) [1, 2, 3] 2)
      [1, 1, 0, 0, 0]) = .error ("boom") := by
  constructor
  · exact (c8_consume_outcome (fun _ : Nat => (.ok () : Except String Unit)) [1, 2, 3] 2
      [0, 1, 0, 1, 0, 0] (by decide) (by decide)).1 (fun x _ => rfl)
  · exact (c8_consume_outcome (fun x : Nat => if x = 2 then .error ("boom") else .ok ())
      [1, 2, 3] 2 [1, 1, 0, 0, 0] (by decide) (by decide)).2
      [1] 2 [3] ("boom") rfl (by decide) (by decide) (by decide)

end Kass
